import Mathlib

/-!
ButterWorthFilter.hpp: a shallow embedding

The C++ class `ButterWorthFilter` is a fixed-order IIR filter with two
`std::deque<double>` histories and a sample-rate gate.  The embedding below keeps
the member names of the class.  `double` is read as an arbitrary linearly ordered
field `K` (exact arithmetic); at `K = ℚ` every definition can be evaluated.

* a `std::deque` / `std::vector` is a `List`, index `0` being the front;
* an exception thrown by the class, and each way of leaving defined behaviour
  (`operator[]` past the end, `pop_back` on an empty deque, a failing `assert`),
  is a `Fault`;
* a member function maps the object before the call to the object after the call
  paired with what the call produced, so that a mutation made before a `throw`
  stays visible.
-/

namespace ButterWorthFilter

/-- The ways a member function can fail to return normally. -/
inductive Fault (K : Type) where
  /-- Thrown by `update`: "Sample rate is not verified!". -/
  | notVerified : Fault K
  /-- Thrown by `verify_sample_rate`: "Sample rate does not match!", with the
  desired and the input interval. -/
  | rateMismatch (desired input : K) : Fault K
  /-- An `operator[]` access at an index that is not below the size. -/
  | outOfRange : Fault K
  /-- A `pop_back` on an empty deque. -/
  | popEmpty : Fault K
  /-- One of the two `assert`s at the end of `update` is false. -/
  | assertFailed : Fault K
  deriving DecidableEq, Repr

end ButterWorthFilter

/-- The data members of the class: the `const` configuration members followed by
the three private members. -/
structure ButterWorthFilter (K : Type) where
  order : Nat
  sample_rate : K
  a : List K
  b : List K
  avg_delay : Int
  x_buf : List K
  y_buf : List K
  sample_rate_verified : Bool
  deriving DecidableEq, Repr

namespace ButterWorthFilter

variable {K : Type} [LinearOrderedField K]

/-- The object left by the constructor `ButterWorthFilter()`: the default member
initialisers, empty deques, and `sample_rate_verified(false)`. -/
def init : ButterWorthFilter K where
  order := 2
  sample_rate := 100.0
  a := [1.000000000000000, -1.561018075800718, 0.641351538057563]
  b := [0.020083365564211, 0.040166731128423, 0.020083365564211]
  avg_delay := 5
  x_buf := []
  y_buf := []
  sample_rate_verified := false

/-- What `update` hands back on a normal return: the `bool` result and the value
written to the reference parameter `y` (`none` stands for `quiet_NaN()`). -/
abbrev Output (K : Type) : Type := Bool × Option K

/-- What a call produced: a normal return or a fault. -/
abbrev Outcome (K : Type) : Type := Except (Fault K) (Output K)

/-- The access `v[i]` of a vector or deque. -/
def readAt (v : List K) (i : Nat) : Except (Fault K) K :=
  match v[i]? with
  | some c => .ok c
  | none => .error .outOfRange

/-- The member call `pop_back()`. -/
def pop_back (v : List K) : Except (Fault K) (List K) :=
  match v with
  | [] => .error .popEmpty
  | _ :: _ => .ok v.dropLast

/-- One pass through the body of the `for` loop of `update`:
`y_buf[0] = y_buf[0] + b[i] * x_buf[i] - a[i] * y_buf[i];`. -/
def loopBody (f : ButterWorthFilter K) (i : Nat) (y_buf : List K) :
    Except (Fault K) (List K) := do
  let y0 ← readAt y_buf 0
  let bi ← readAt f.b i
  let xi ← readAt f.x_buf i
  let ai ← readAt f.a i
  let yi ← readAt y_buf i
  pure (y_buf.set 0 (y0 + bi * xi - ai * yi))

/-- The loop `for (int i = ...; i <= order; ++i)` of `update`, entered at index
`i` with `n` passes left to make. -/
def loop (f : ButterWorthFilter K) : Nat → Nat → List K → Except (Fault K) (List K)
  | 0, _, y_buf => pure y_buf
  | n + 1, i, y_buf => loopBody f i y_buf >>= loop f n (i + 1)

/-- The part of `update` below the comment `// Get enough data`; `f` is the
object after `x_buf.push_front(x)`.  Returns the object at `return true` and the
value assigned to `y`. -/
def steady (f : ButterWorthFilter K) : Except (Fault K) (ButterWorthFilter K × K) := do
  let b0 ← readAt f.b 0
  let x0 ← readAt f.x_buf 0
  let y_buf ← loop f f.order 1 (b0 * x0 :: f.y_buf)
  let y ← readAt y_buf 0
  let x_buf ← pop_back f.x_buf
  let y_buf ← pop_back y_buf
  if x_buf.length ≠ f.order then throw .assertFailed
  else if y_buf.length ≠ f.order then throw .assertFailed
  else pure ({ f with x_buf := x_buf, y_buf := y_buf }, y)

/-- The member function `bool update(double x, double& y)`.  When the steady
branch leaves defined behaviour the object reported is the one after
`x_buf.push_front(x)`. -/
def update (f : ButterWorthFilter K) (x : K) : ButterWorthFilter K × Outcome K :=
  if f.sample_rate_verified = false then
    (f, .error .notVerified)
  else
    let f1 := { f with x_buf := x :: f.x_buf }
    if f1.x_buf.length ≤ f1.order then
      ({ f1 with y_buf := 0 :: f1.y_buf }, .ok (false, none))
    else
      match steady f1 with
      | .ok (f2, y) => (f2, .ok (true, some y))
      | .error e => (f1, .error e)

/-- The member function `void verify_sample_rate(double dt)`: the flag is
assigned first and the exception thrown afterwards. -/
def verify_sample_rate (f : ButterWorthFilter K) (dt : K) :
    ButterWorthFilter K × Except (Fault K) Unit :=
  let dt_ := 1.0 / f.sample_rate
  let f1 := { f with sample_rate_verified := decide (|dt - dt_| < 0.49 * dt_) }
  if f1.sample_rate_verified = false then
    (f1, .error (.rateMismatch (1.0 / f.sample_rate) dt))
  else
    (f1, .ok ())

/-- A caller that makes the calls `update(x)` for the `x` of a list in turn:
the object after the last call and what each call produced. -/
def run (f : ButterWorthFilter K) : List K → ButterWorthFilter K × List (Outcome K)
  | [] => (f, [])
  | x :: xs => ((run (update f x).1 xs).1, (update f x).2 :: (run (update f x).1 xs).2)

/-- The invariant of the configuration: `len(a) == len(b) == order + 1`. -/
def WellFormed (f : ButterWorthFilter K) : Prop :=
  f.a.length = f.order + 1 ∧ f.b.length = f.order + 1

instance (f : ButterWorthFilter K) : Decidable (WellFormed f) := by
  unfold WellFormed; infer_instance

/-- The private members as the constructor leaves them: both deques empty and
`sample_rate_verified(false)`. -/
def IsFresh (f : ButterWorthFilter K) : Prop :=
  f.x_buf = [] ∧ f.y_buf = [] ∧ f.sample_rate_verified = false

/-- The value a call left at the front of `y_buf`: the `y` it returned when it
returned `true`, the placeholder `0.0` otherwise. -/
def historyValue : Outcome K → K
  | .ok (true, some y) => y
  | _ => 0

/-- The objects a caller can bring about from `f0` by calls of
`verify_sample_rate` and `update` in any order. -/
inductive Reachable (f0 : ButterWorthFilter K) : ButterWorthFilter K → Prop where
  | start : Reachable f0 f0
  | verify (g : ButterWorthFilter K) (dt : K) :
      Reachable f0 g → Reachable f0 (verify_sample_rate g dt).1
  | update (g : ButterWorthFilter K) (x : K) :
      Reachable f0 g → Reachable f0 (update g x).1

/-- One call a caller can make on the object: `verify_sample_rate(dt)` or
`update(x, y)`. -/
inductive Call (K : Type) where
  | verify (dt : K) : Call K
  | process (x : K) : Call K
  deriving DecidableEq, Repr

/-- The object after a call of either member function and what the call produced
(`none` for the `void` return of `verify_sample_rate`). -/
def perform (f : ButterWorthFilter K) :
    Call K → ButterWorthFilter K × Except (Fault K) (Option (Output K))
  | .verify dt => ((verify_sample_rate f dt).1, (verify_sample_rate f dt).2.map fun _ => none)
  | .process x => ((update f x).1, (update f x).2.map some)

/-- A caller that makes the calls of a list in turn: the object after the last
call and what each call produced. -/
def session (f : ButterWorthFilter K) :
    List (Call K) → ButterWorthFilter K × List (Except (Fault K) (Option (Output K)))
  | [] => (f, [])
  | c :: cs =>
    ((session (perform f c).1 cs).1, (perform f c).2 :: (session (perform f c).1 cs).2)

/-! ### Definitions that follow the specification's words -/

/-- Specification, steady-state case of `process`:
`y = b[0]*x[0] + Σ_{i=1..order} (b[i]*x[i] - a[i]*y[i-1])`, where `x[0]` is the
new input, `x[i]` the `i`-th most recent prior input and `y[i-1]` the `i`-th most
recent prior output; `f` is the object before the call. -/
def differenceEquation (f : ButterWorthFilter K) (x : K) : K :=
  f.b.getD 0 0 * x + ∑ i in Finset.Icc 1 f.order,
    (f.b.getD i 0 * f.x_buf.getD (i - 1) 0 - f.a.getD i 0 * f.y_buf.getD (i - 1) 0)

/-- Specification, buffer sizing: "push new value to front, then if size exceeds
`order`, drop the oldest". -/
def pushBounded (order : Nat) (v : K) (buf : List K) : List K :=
  if order < (v :: buf).length then (v :: buf).dropLast else v :: buf

/-- Specification, direct-form recurrence over a whole stream `x 1, x 2, ...`:
`s k = 0` for `k ≤ order`, and for `n > order`
`s n = Σ_{i=0..order} b[i]*x (n-i) - Σ_{i=1..order} a[i]*s (n-i)`. -/
def directForm (f : ButterWorthFilter K) (x : Nat → K) (n : Nat) : K :=
  if _h : n ≤ f.order then 0
  else
    (∑ i in Finset.range (f.order + 1), f.b.getD i 0 * x (n - i))
      - ∑ i : Fin f.order, f.a.getD (i.val + 1) 0 * directForm f x (n - (i.val + 1))
termination_by n
decreasing_by omega

/-! ## Theorems -/

set_option linter.unusedSectionVars false

/-! ### The loop and the steady branch -/

theorem readAt_of_lt (v : List K) (i : Nat) (h : i < v.length) :
    readAt v i = .ok (v.getD i 0) := by
  simp [readAt, List.getD, List.getElem?_eq_getElem h]

theorem loopBody_eq (f : ButterWorthFilter K) (i : Nat) (y0 : K) (ys : List K) (hi : 1 ≤ i)
    (hb : i < f.b.length) (ha : i < f.a.length) (hx : i < f.x_buf.length)
    (hy : i < ys.length + 1) :
    loopBody f i (y0 :: ys) =
      .ok ((y0 + f.b.getD i 0 * f.x_buf.getD i 0 - f.a.getD i 0 * ys.getD (i - 1) 0) :: ys) := by
  obtain ⟨j, rfl⟩ : ∃ j, i = j + 1 := ⟨i - 1, by omega⟩
  have h0 : readAt (y0 :: ys) 0 = .ok y0 := by simp [readAt]
  have h1 : readAt (y0 :: ys) (j + 1) = .ok (ys.getD j 0) := by
    rw [readAt_of_lt _ _ (by simpa using hy)]; simp
  simp only [loopBody, h0, h1, readAt_of_lt _ _ hb, readAt_of_lt _ _ ha, readAt_of_lt _ _ hx]
  rfl

/-- With every index in range the loop returns, and the front of `y_buf` has
gathered one term per pass. -/
theorem loop_eq (f : ButterWorthFilter K) (n : Nat) : ∀ (i : Nat) (y0 : K) (ys : List K),
    1 ≤ i → i + n ≤ f.b.length → i + n ≤ f.a.length → i + n ≤ f.x_buf.length →
    i + n ≤ ys.length + 1 →
    loop f n i (y0 :: ys) =
      .ok ((y0 + ∑ j in Finset.range n,
        (f.b.getD (i + j) 0 * f.x_buf.getD (i + j) 0
          - f.a.getD (i + j) 0 * ys.getD (i + j - 1) 0)) :: ys) := by
  induction n with
  | zero => intro i y0 ys _ _ _ _ _; simp [loop]; rfl
  | succ n ih =>
    intro i y0 ys hi hb ha hx hy
    have hstep := loopBody_eq f i y0 ys hi (by omega) (by omega) (by omega) (by omega)
    have hrest := ih (i + 1)
      (y0 + f.b.getD i 0 * f.x_buf.getD i 0 - f.a.getD i 0 * ys.getD (i - 1) 0)
      ys (by omega) (by omega) (by omega) (by omega) (by omega)
    have hsum : ∀ t : Nat → K, ∑ j in Finset.range (n + 1), t (i + j)
        = t i + ∑ j in Finset.range n, t (i + 1 + j) := by
      intro t
      rw [Finset.sum_range_succ', add_comm]
      simp [Nat.add_assoc, Nat.add_comm 1]
    show (loopBody f i (y0 :: ys) >>= loop f n (i + 1)) = _
    rw [hstep]
    show loop f n (i + 1) _ = _
    rw [hrest, hsum (fun k => f.b.getD k 0 * f.x_buf.getD k 0 - f.a.getD k 0 * ys.getD (k - 1) 0)]
    congr 2
    ring

/-- The specification's sum over `i = 1..order`, indexed from `0`. -/
theorem differenceEquation_eq_range (f : ButterWorthFilter K) (x : K) :
    differenceEquation f x = f.b.getD 0 0 * x + ∑ j in Finset.range f.order,
      (f.b.getD (j + 1) 0 * f.x_buf.getD j 0 - f.a.getD (j + 1) 0 * f.y_buf.getD j 0) := by
  unfold differenceEquation
  rw [← Nat.Ico_succ_right, Finset.sum_Ico_eq_sum_range]
  simp [Nat.add_comm 1]

theorem dropLast_cons_eq_take (v : K) (l : List K) :
    (v :: l).dropLast = (v :: l).take l.length := by
  rw [List.dropLast_eq_take]; simp

/-- The steady branch on full histories: no fault, the value of the difference
equation, and both deques back at `order` entries. -/
theorem steady_eq (f : ButterWorthFilter K) (x : K) (hwf : WellFormed f)
    (hx : f.x_buf.length = f.order) (hy : f.y_buf.length = f.order) :
    steady { f with x_buf := x :: f.x_buf } =
      .ok ({ f with x_buf := (x :: f.x_buf).take f.order,
                    y_buf := (differenceEquation f x :: f.y_buf).take f.order },
           differenceEquation f x) := by
  obtain ⟨ha, hb⟩ := hwf
  have hloop := loop_eq { f with x_buf := x :: f.x_buf } f.order 1 (f.b.getD 0 0 * x) f.y_buf
    (le_refl 1) (by simp; omega) (by simp; omega) (by simp; omega) (by omega)
  have hval : f.b.getD 0 0 * x + ∑ j in Finset.range f.order,
      (f.b.getD (1 + j) 0 * (x :: f.x_buf).getD (1 + j) 0
        - f.a.getD (1 + j) 0 * f.y_buf.getD (1 + j - 1) 0) = differenceEquation f x := by
    rw [differenceEquation_eq_range]
    simp [Nat.add_comm 1]
  simp only [hval] at hloop
  have hb0 : readAt f.b 0 = .ok (f.b.getD 0 0) := readAt_of_lt _ _ (by omega)
  have hx0 : readAt (x :: f.x_buf) 0 = .ok x := by simp [readAt]
  have hy0 : readAt (differenceEquation f x :: f.y_buf) 0 = .ok (differenceEquation f x) := by
    simp [readAt]
  simp only [steady, hb0, hx0, bind, Except.bind, hloop, hy0, pop_back]
  simp [dropLast_cons_eq_take, hx, hy, pure, Except.pure, throw, throwThe, MonadExceptOf.throw]

/-! ### One call of `update` -/

theorem update_unverified (f : ButterWorthFilter K) (x : K)
    (hv : f.sample_rate_verified = false) : update f x = (f, .error .notVerified) := by
  simp [update, hv]

theorem update_warm (f : ButterWorthFilter K) (x : K) (hv : f.sample_rate_verified = true)
    (hx : f.x_buf.length < f.order) :
    update f x = ({ f with x_buf := x :: f.x_buf, y_buf := 0 :: f.y_buf }, .ok (false, none)) := by
  have h : f.x_buf.length + 1 ≤ f.order := hx
  simp [update, hv, h]

theorem update_steady (f : ButterWorthFilter K) (x : K) (hv : f.sample_rate_verified = true)
    (hwf : WellFormed f) (hx : f.x_buf.length = f.order) (hy : f.y_buf.length = f.order) :
    update f x =
      ({ f with x_buf := (x :: f.x_buf).take f.order,
                y_buf := (differenceEquation f x :: f.y_buf).take f.order },
       .ok (true, some (differenceEquation f x))) := by
  have h : ¬ f.x_buf.length + 1 ≤ f.order := by omega
  have hs := steady_eq f x hwf hx hy
  simp only [hv] at hs
  simp [update, hv, h, hs]

/-- What a call on a verified object with histories of equal length at most
`order` returns. -/
theorem update_result (f : ButterWorthFilter K) (x : K) (hv : f.sample_rate_verified = true)
    (hwf : WellFormed f) (hxy : f.x_buf.length = f.y_buf.length)
    (hle : f.x_buf.length ≤ f.order) :
    (update f x).2 = if f.x_buf.length < f.order then .ok (false, none)
      else .ok (true, some (differenceEquation f x)) := by
  split_ifs with h
  · rw [update_warm f x hv h]
  · rw [update_steady f x hv hwf (by omega) (by omega)]

theorem take_cons_take (n : Nat) (v : K) (l : List K) :
    (v :: l.take n).take n = (v :: l).take n := by
  cases n with
  | zero => rfl
  | succ m => simp [List.take_take]

/-- The object after a call on a verified object with histories of equal length
at most `order`: both deques take the new front and keep `order` entries. -/
theorem update_state (f : ButterWorthFilter K) (x : K) (hv : f.sample_rate_verified = true)
    (hwf : WellFormed f) (hxy : f.x_buf.length = f.y_buf.length)
    (hle : f.x_buf.length ≤ f.order) :
    (update f x).1 =
      { f with x_buf := (x :: f.x_buf).take f.order,
               y_buf := (historyValue (update f x).2 :: f.y_buf).take f.order } := by
  by_cases h : f.x_buf.length < f.order
  · rw [update_warm f x hv h]
    have h1 : (x :: f.x_buf).take f.order = x :: f.x_buf :=
      List.take_of_length_le (by simpa using h)
    have h2 : ((0 : K) :: f.y_buf).take f.order = 0 :: f.y_buf :=
      List.take_of_length_le (by simp; omega)
    simp [historyValue, h1, h2]
  · rw [update_steady f x hv hwf (by omega) (by omega)]
    simp [historyValue]

/-! ### A run of calls -/

theorem run_append (f : ButterWorthFilter K) (xs ys : List K) :
    run f (xs ++ ys) = ((run (run f xs).1 ys).1, (run f xs).2 ++ (run (run f xs).1 ys).2) := by
  induction xs generalizing f with
  | nil => simp [run]
  | cons x xs ih => simp [run, ih]

theorem run_snoc (f : ButterWorthFilter K) (xs : List K) (x : K) :
    run f (xs ++ [x]) =
      ((update (run f xs).1 x).1, (run f xs).2 ++ [(update (run f xs).1 x).2]) := by
  rw [run_append]; simp [run]

theorem run_length (f : ButterWorthFilter K) (xs : List K) :
    (run f xs).2.length = xs.length := by
  induction xs generalizing f with
  | nil => simp [run]
  | cons x xs ih => simp [run, ih]

/-- The `k`-th call of a run (counted from `0`) is `update` applied to the object
left by the calls before it. -/
theorem run_outcome_at (f : ButterWorthFilter K) (xs : List K) (k : Nat) (x : K)
    (hk : xs[k]? = some x) :
    (run f xs).2[k]? = some (update (run f (xs.take k)).1 x).2 := by
  induction xs generalizing f k with
  | nil => simp at hk
  | cons z zs ih =>
    cases k with
    | zero => simp at hk; simp [run, hk]
    | succ k => simp at hk; simp [run, ih _ k hk]

/-- A successful `verify_sample_rate` changes nothing but the flag, which it
leaves `true`. -/
theorem verify_ok_state (f : ButterWorthFilter K) (dt : K)
    (h : (verify_sample_rate f dt).2 = .ok ()) :
    (verify_sample_rate f dt).1 = { f with sample_rate_verified := true } := by
  unfold verify_sample_rate at h ⊢
  by_cases hc : |dt - 1.0 / f.sample_rate| < 0.49 * (1.0 / f.sample_rate)
  · simp [hc]
  · simp [hc] at h

/-- The object after a run from a verified object with empty histories: the
inputs, newest first, and the history values, newest first, each cut to `order`
entries. -/
theorem run_state (g : ButterWorthFilter K) (hv : g.sample_rate_verified = true)
    (hwf : WellFormed g) (hx : g.x_buf = []) (hy : g.y_buf = []) (xs : List K) :
    (run g xs).1 = { g with x_buf := xs.reverse.take g.order,
                            y_buf := ((run g xs).2.map historyValue).reverse.take g.order } := by
  induction xs using List.reverseRecOn with
  | nil => cases g; simp_all [run]
  | append_singleton xs x ih =>
    have hlen := run_length g xs
    generalize hS : (run g xs).1 = S at ih
    generalize hO : (run g xs).2 = O at ih hlen
    rw [run_snoc, hS, hO]
    have hSv : S.sample_rate_verified = true := by rw [ih]; exact hv
    have hSwf : WellFormed S := by rw [ih]; exact hwf
    have hSo : S.order = g.order := by rw [ih]
    have hSx : S.x_buf = xs.reverse.take g.order := by rw [ih]
    have hSy : S.y_buf = (O.map historyValue).reverse.take g.order := by rw [ih]
    have hxy : S.x_buf.length = S.y_buf.length := by simp [hSx, hSy, hlen]
    have hle : S.x_buf.length ≤ S.order := by simp [hSx, hSo]
    rw [update_state S x hSv hSwf hxy hle]
    simp only [hSx, hSy, hSo, take_cons_take]
    rw [ih]
    simp

/-- The object a fresh one becomes by a successful `verify_sample_rate`. -/
theorem verified_fresh (f : ButterWorthFilter K) (dt : K) (hwf : WellFormed f)
    (hfresh : IsFresh f) (hver : (verify_sample_rate f dt).2 = .ok ()) :
    (verify_sample_rate f dt).1.sample_rate_verified = true ∧
    WellFormed (verify_sample_rate f dt).1 ∧
    (verify_sample_rate f dt).1.x_buf = [] ∧ (verify_sample_rate f dt).1.y_buf = [] ∧
    (verify_sample_rate f dt).1.order = f.order := by
  rw [verify_ok_state f dt hver]
  exact ⟨rfl, hwf, hfresh.1, hfresh.2.1, rfl⟩

/-! ### C1: the steady-state step -/

/-- C1. On a verified object whose two histories hold exactly `order` values
(`order` positive, coefficient vectors of length `order + 1`), `update(x)` returns
`true` with `y = b[0]*x + Σ_{i=1..order} (b[i]*x_i - a[i]*y_{i-1})`, `x_i` and
`y_{i-1}` being the `i`-th most recent prior input and output; afterwards `x_buf`
is `x` followed by the old `x_buf` without its last element, `y_buf` is `y`
followed by the old `y_buf` without its last element, and nothing else changed. -/
theorem update_steady_state_step (f : ButterWorthFilter K) (x : K) (hwf : WellFormed f)
    (hpos : 0 < f.order) (hv : f.sample_rate_verified = true)
    (hx : f.x_buf.length = f.order) (hy : f.y_buf.length = f.order) :
    ∃ y : K,
      y = f.b.getD 0 0 * x + ∑ i in Finset.Icc 1 f.order,
            (f.b.getD i 0 * f.x_buf.getD (i - 1) 0 - f.a.getD i 0 * f.y_buf.getD (i - 1) 0) ∧
      update f x = ({ f with x_buf := x :: f.x_buf.dropLast, y_buf := y :: f.y_buf.dropLast },
                    .ok (true, some y)) := by
  refine ⟨differenceEquation f x, rfl, ?_⟩
  rw [update_steady f x hv hwf hx hy]
  have hxne : f.x_buf ≠ [] := by
    intro h; rw [h] at hx; simp at hx; omega
  have hyne : f.y_buf ≠ [] := by
    intro h; rw [h] at hy; simp at hy; omega
  have h1 : (x :: f.x_buf).take f.order = x :: f.x_buf.dropLast := by
    rw [← hx, ← dropLast_cons_eq_take, List.dropLast_cons_of_ne_nil hxne]
  have h2 : (differenceEquation f x :: f.y_buf).take f.order
      = differenceEquation f x :: f.y_buf.dropLast := by
    rw [← hy, ← dropLast_cons_eq_take, List.dropLast_cons_of_ne_nil hyne]
  rw [h1, h2]

/-- C1 at a concrete object: the reference coefficients over `ℚ`, histories
`[1, 2]` and `[3, 4]`, input `5`. -/
theorem update_steady_state_step_witness :
    WellFormed ({ init with sample_rate_verified := true, x_buf := [1, 2], y_buf := [3, 4] } :
      ButterWorthFilter ℚ) ∧
    0 < (init : ButterWorthFilter ℚ).order ∧
    ([1, 2] : List ℚ).length = (init : ButterWorthFilter ℚ).order ∧
    ([3, 4] : List ℚ).length = (init : ButterWorthFilter ℚ).order ∧
    ∃ y : ℚ,
      y = 0.020083365564211 * 5 + ∑ i in Finset.Icc 1 2,
            (([0.020083365564211, 0.040166731128423, 0.020083365564211] : List ℚ).getD i 0
                * ([1, 2] : List ℚ).getD (i - 1) 0
              - ([1.000000000000000, -1.561018075800718, 0.641351538057563] : List ℚ).getD i 0
                * ([3, 4] : List ℚ).getD (i - 1) 0) ∧
      update ({ init with sample_rate_verified := true, x_buf := [1, 2], y_buf := [3, 4] } :
          ButterWorthFilter ℚ) 5
        = ({ init with sample_rate_verified := true, x_buf := [5, 1], y_buf := [y, 3] },
           .ok (true, some y)) :=
  ⟨by decide, by decide, rfl, rfl,
   update_steady_state_step
     ({ init with sample_rate_verified := true, x_buf := [1, 2], y_buf := [3, 4] } :
       ButterWorthFilter ℚ) 5 (by decide) (by decide) rfl rfl rfl⟩

/-! ### C2: warm-up lasts exactly `order` calls -/

/-- Call number `k + 1` of a run from a verified object with empty histories:
a warm-up return while `k < order`, the difference equation on the object left by
the first `k` calls afterwards. -/
theorem run_outcome (g : ButterWorthFilter K) (hv : g.sample_rate_verified = true)
    (hwf : WellFormed g) (hx : g.x_buf = []) (hy : g.y_buf = []) (xs : List K) (k : Nat) (x : K)
    (hk : xs[k]? = some x) :
    (run g xs).2[k]? = some (if k < g.order then .ok (false, none)
      else .ok (true, some (differenceEquation (run g (xs.take k)).1 x))) := by
  have hklt : k < xs.length := by
    rcases Nat.lt_or_ge k xs.length with h | h
    · exact h
    · rw [List.getElem?_eq_none h] at hk; cases hk
  rw [run_outcome_at g xs k x hk]
  have hst := run_state g hv hwf hx hy (xs.take k)
  have hlen := run_length g (xs.take k)
  generalize (run g (xs.take k)).1 = S at hst ⊢
  generalize (run g (xs.take k)).2 = O at hst hlen
  have hSv : S.sample_rate_verified = true := by rw [hst]; exact hv
  have hSwf : WellFormed S := by rw [hst]; exact hwf
  have hSo : S.order = g.order := by rw [hst]
  have hSx : S.x_buf.length = min g.order k := by
    rw [hst]; simp [Nat.min_eq_left (Nat.le_of_lt hklt)]
  have hSy : S.y_buf.length = min g.order k := by
    rw [hst]; simp [hlen, Nat.min_eq_left (Nat.le_of_lt hklt)]
  rw [update_result S x hSv hSwf (by omega) (by omega), hSx, hSo]
  congr 1
  by_cases h : k < g.order
  · simp [h, Nat.min_eq_right (Nat.le_of_lt h)]
  · simp [h, Nat.min_eq_left (Nat.le_of_not_lt h)]

/-- C2. On a fresh object on which `verify_sample_rate` has succeeded, and for
every input sequence, the `k`-th call of `update` returns `false` with `y = NaN`
when `k ≤ order`, and `true` with a value `y` when `k > order`. -/
theorem ready_exactly_after_order_calls (f : ButterWorthFilter K) (dt : K) (xs : List K)
    (k : Nat) (hwf : WellFormed f) (hfresh : IsFresh f)
    (hver : (verify_sample_rate f dt).2 = .ok ()) (hk1 : 1 ≤ k) (hk : k ≤ xs.length) :
    ∃ y : K, (run (verify_sample_rate f dt).1 xs).2[k - 1]? =
      some (if k ≤ f.order then .ok (false, none) else .ok (true, some y)) := by
  obtain ⟨hv, hwf2, hx, hy, ho⟩ := verified_fresh f dt hwf hfresh hver
  have hlt : k - 1 < xs.length := by omega
  have hget : xs[k - 1]? = some (xs[k - 1]) := List.getElem?_eq_getElem hlt
  refine ⟨differenceEquation (run (verify_sample_rate f dt).1 (xs.take (k - 1))).1 xs[k - 1], ?_⟩
  rw [run_outcome _ hv hwf2 hx hy xs (k - 1) _ hget, ho]
  congr 1
  by_cases h : k ≤ f.order
  · have h2 : k - 1 < f.order := by omega
    simp [h, h2]
  · have h2 : ¬ k - 1 < f.order := by omega
    simp [h, h2]

/-- C2 at the reference object over `ℚ`, verified with `dt = 0.01`, inputs
`7, 8, 9, 10`, fourth call. -/
theorem ready_exactly_after_order_calls_witness :
    WellFormed (init : ButterWorthFilter ℚ) ∧ IsFresh (init : ButterWorthFilter ℚ) ∧
    (verify_sample_rate (init : ButterWorthFilter ℚ) 0.01).2 = .ok () ∧
    1 ≤ 4 ∧ 4 ≤ [(7 : ℚ), 8, 9, 10].length ∧
    ∃ y : ℚ, (run (verify_sample_rate (init : ButterWorthFilter ℚ) 0.01).1 [7, 8, 9, 10]).2[4 - 1]? =
      some (if 4 ≤ (init : ButterWorthFilter ℚ).order then .ok (false, none)
        else .ok (true, some y)) :=
  have hver : (verify_sample_rate (init : ButterWorthFilter ℚ) 0.01).2 = .ok () := by
    norm_num [verify_sample_rate, init]
  ⟨by decide, ⟨rfl, rfl, rfl⟩, hver, by decide, by decide,
   ready_exactly_after_order_calls init 0.01 [7, 8, 9, 10] 4 (by decide) ⟨rfl, rfl, rfl⟩ hver
     (by decide) (by decide)⟩

/-! ### C3: `update` before verification -/

theorem run_unverified (f : ButterWorthFilter K) (hv : f.sample_rate_verified = false)
    (zs : List K) : run f zs = (f, List.replicate zs.length (.error .notVerified)) := by
  induction zs with
  | nil => rfl
  | cons z zs ih => simp [run, update_unverified f z hv, ih, List.replicate_succ]

theorem bind_error {α β : Type} (m : Except (Fault K) α) (k : α → Except (Fault K) β)
    (e : Fault K) (h : (m >>= k) = .error e) :
    m = .error e ∨ ∃ c, m = .ok c ∧ k c = .error e := by
  cases m with
  | error e2 =>
    left
    have h2 : e2 = e := by simpa [bind, Except.bind] using h
    rw [h2]
  | ok c => right; exact ⟨c, rfl, h⟩

theorem readAt_error (v : List K) (i : Nat) (e : Fault K) (h : readAt v i = .error e) :
    e ≠ .notVerified := by
  unfold readAt at h
  split at h
  · cases h
  · cases h; simp

theorem pop_back_error (v : List K) (e : Fault K) (h : pop_back v = .error e) :
    e ≠ .notVerified := by
  unfold pop_back at h
  split at h
  · cases h; simp
  · cases h

theorem loopBody_error (f : ButterWorthFilter K) (i : Nat) (y_buf : List K) (e : Fault K)
    (h : loopBody f i y_buf = .error e) : e ≠ .notVerified := by
  unfold loopBody at h
  rcases bind_error _ _ _ h with h | ⟨_, -, h⟩
  · exact readAt_error _ _ _ h
  rcases bind_error _ _ _ h with h | ⟨_, -, h⟩
  · exact readAt_error _ _ _ h
  rcases bind_error _ _ _ h with h | ⟨_, -, h⟩
  · exact readAt_error _ _ _ h
  rcases bind_error _ _ _ h with h | ⟨_, -, h⟩
  · exact readAt_error _ _ _ h
  rcases bind_error _ _ _ h with h | ⟨_, -, h⟩
  · exact readAt_error _ _ _ h
  cases h

theorem loop_error (f : ButterWorthFilter K) (n : Nat) : ∀ (i : Nat) (y_buf : List K)
    (e : Fault K), loop f n i y_buf = .error e → e ≠ .notVerified := by
  induction n with
  | zero => intro i y_buf e h; cases h
  | succ n ih =>
    intro i y_buf e h
    rcases bind_error _ _ _ h with h | ⟨_, -, h⟩
    · exact loopBody_error _ _ _ _ h
    · exact ih _ _ _ h

/-- The steady branch never throws the exception of the unverified case. -/
theorem steady_error (f : ButterWorthFilter K) (e : Fault K) (h : steady f = .error e) :
    e ≠ .notVerified := by
  unfold steady at h
  rcases bind_error _ _ _ h with h | ⟨_, -, h⟩
  · exact readAt_error _ _ _ h
  rcases bind_error _ _ _ h with h | ⟨_, -, h⟩
  · exact readAt_error _ _ _ h
  rcases bind_error _ _ _ h with h | ⟨_, -, h⟩
  · exact loop_error _ _ _ _ _ h
  rcases bind_error _ _ _ h with h | ⟨_, -, h⟩
  · exact readAt_error _ _ _ h
  rcases bind_error _ _ _ h with h | ⟨_, -, h⟩
  · exact pop_back_error _ _ h
  rcases bind_error _ _ _ h with h | ⟨_, -, h⟩
  · exact pop_back_error _ _ h
  split_ifs at h
  · cases h; simp
  · cases h; simp
  · cases h

theorem update_notVerified_iff (g : ButterWorthFilter K) (x : K) :
    (update g x).2 = .error .notVerified ↔ g.sample_rate_verified = false := by
  constructor
  · intro h
    by_contra hne
    unfold update at h
    rw [if_neg hne] at h
    dsimp only at h
    by_cases hle : (x :: g.x_buf).length ≤ g.order
    · rw [if_pos hle] at h
      cases h
    · rw [if_neg hle] at h
      split at h
      · cases h
      · rename_i e he
        have h2 : e = .notVerified := by simpa using h
        exact steady_error _ _ he h2
  · intro hv
    rw [update_unverified g x hv]

/-- C3. `update` throws "Sample rate is not verified!" exactly when the flag is
false, and such a call leaves the object as it was.  Hence, on an unverified
object (a fresh one in particular), any calls of `update` made before
`verify_sample_rate(dt)` all throw, and the verification and every later call
return what they return, and leave the object they leave, without those calls. -/
theorem update_unverified_no_effect (f : ButterWorthFilter K)
    (hv : f.sample_rate_verified = false) (zs : List K) (dt : K) (xs : List K) :
    (∀ (g : ButterWorthFilter K) (x : K),
      (update g x).2 = .error .notVerified ↔ g.sample_rate_verified = false) ∧
    (∀ x : K, update f x = (f, .error .notVerified)) ∧
    run f zs = (f, List.replicate zs.length (.error .notVerified)) ∧
    verify_sample_rate (run f zs).1 dt = verify_sample_rate f dt ∧
    run (verify_sample_rate (run f zs).1 dt).1 xs = run (verify_sample_rate f dt).1 xs := by
  have hrun := run_unverified f hv zs
  refine ⟨update_notVerified_iff, fun x => update_unverified f x hv, hrun, ?_, ?_⟩
  · rw [hrun]
  · rw [hrun]

/-- C3 at the fresh reference object over `ℚ`: three calls before
`verify_sample_rate(0.01)`, then the inputs `1, 2, 3`. -/
theorem update_unverified_no_effect_witness :
    (init : ButterWorthFilter ℚ).sample_rate_verified = false ∧
    ((∀ (g : ButterWorthFilter ℚ) (x : ℚ),
      (update g x).2 = .error .notVerified ↔ g.sample_rate_verified = false) ∧
    (∀ x : ℚ, update (init : ButterWorthFilter ℚ) x = (init, .error .notVerified)) ∧
    run (init : ButterWorthFilter ℚ) [4, 5, 6]
      = (init, List.replicate [(4 : ℚ), 5, 6].length (.error .notVerified)) ∧
    verify_sample_rate (run (init : ButterWorthFilter ℚ) [4, 5, 6]).1 0.01
      = verify_sample_rate init 0.01 ∧
    run (verify_sample_rate (run (init : ButterWorthFilter ℚ) [4, 5, 6]).1 0.01).1 [1, 2, 3]
      = run (verify_sample_rate init 0.01).1 [1, 2, 3]) :=
  ⟨rfl, update_unverified_no_effect init rfl [4, 5, 6] 0.01 [1, 2, 3]⟩

/-! ### C4: `verify_sample_rate` -/

/-- C4. `verify_sample_rate(dt)` returns normally exactly when
`|dt - 1/sample_rate| < 0.49 * (1/sample_rate)`; it then leaves the flag true, and
otherwise throws "Sample rate does not match!" with the desired and the input
interval and leaves the flag false; nothing else changes.  With a positive
`sample_rate`, `dt = 1/sample_rate` is accepted and `dt = 3 * (1/sample_rate)` is
rejected. -/
theorem verify_sample_rate_accepts_iff (f : ButterWorthFilter K) (dt : K)
    (hrate : 0 < f.sample_rate) :
    ((verify_sample_rate f dt).2 = .ok () ↔
      |dt - 1 / f.sample_rate| < 0.49 * (1 / f.sample_rate)) ∧
    verify_sample_rate f dt =
      (if |dt - 1 / f.sample_rate| < 0.49 * (1 / f.sample_rate)
        then ({ f with sample_rate_verified := true }, .ok ())
        else ({ f with sample_rate_verified := false },
              .error (.rateMismatch (1 / f.sample_rate) dt))) ∧
    (verify_sample_rate f (1 / f.sample_rate)).2 = .ok () ∧
    (verify_sample_rate f (3 * (1 / f.sample_rate))).2
      = .error (.rateMismatch (1 / f.sample_rate) (3 * (1 / f.sample_rate))) := by
  have hpos : (0 : K) < 1 / f.sample_rate := one_div_pos.mpr hrate
  have hgen : ∀ d : K, verify_sample_rate f d =
      (if |d - 1 / f.sample_rate| < 0.49 * (1 / f.sample_rate)
        then ({ f with sample_rate_verified := true }, .ok ())
        else ({ f with sample_rate_verified := false },
              .error (.rateMismatch (1 / f.sample_rate) d))) := by
    intro d
    have h1 : (1.0 : K) = 1 := by norm_num
    unfold verify_sample_rate
    rw [h1]
    dsimp only
    by_cases hc : |d - 1 / f.sample_rate| < 0.49 * (1 / f.sample_rate)
    · rw [if_pos hc, decide_eq_true hc]; rfl
    · rw [if_neg hc, decide_eq_false hc]; rfl
  refine ⟨?_, hgen dt, ?_, ?_⟩
  · rw [hgen dt]
    split_ifs with hc
    · exact ⟨fun _ => hc, fun _ => rfl⟩
    · exact ⟨fun h => (by cases h), fun h => absurd h hc⟩
  · rw [hgen, if_pos]
    rw [sub_self, abs_zero]
    exact mul_pos (by norm_num) hpos
  · rw [hgen, if_neg]
    have h2 : 3 * (1 / f.sample_rate) - 1 / f.sample_rate = 2 * (1 / f.sample_rate) := by ring
    rw [h2, abs_of_pos (mul_pos (by norm_num) hpos)]
    intro hlt
    have := (mul_lt_mul_right hpos).mp hlt
    norm_num at this

/-- C4 at the reference object over `ℚ` with `dt = 0.012`. -/
theorem verify_sample_rate_accepts_iff_witness :
    (0 : ℚ) < (init : ButterWorthFilter ℚ).sample_rate ∧
    (((verify_sample_rate (init : ButterWorthFilter ℚ) 0.012).2 = .ok () ↔
      |(0.012 : ℚ) - 1 / (init : ButterWorthFilter ℚ).sample_rate|
        < 0.49 * (1 / (init : ButterWorthFilter ℚ).sample_rate)) ∧
    verify_sample_rate (init : ButterWorthFilter ℚ) 0.012 =
      (if |(0.012 : ℚ) - 1 / (init : ButterWorthFilter ℚ).sample_rate|
          < 0.49 * (1 / (init : ButterWorthFilter ℚ).sample_rate)
        then ({ (init : ButterWorthFilter ℚ) with sample_rate_verified := true }, .ok ())
        else ({ (init : ButterWorthFilter ℚ) with sample_rate_verified := false },
              .error (.rateMismatch (1 / (init : ButterWorthFilter ℚ).sample_rate) 0.012))) ∧
    (verify_sample_rate (init : ButterWorthFilter ℚ)
      (1 / (init : ButterWorthFilter ℚ).sample_rate)).2 = .ok () ∧
    (verify_sample_rate (init : ButterWorthFilter ℚ)
      (3 * (1 / (init : ButterWorthFilter ℚ).sample_rate))).2
      = .error (.rateMismatch (1 / (init : ButterWorthFilter ℚ).sample_rate)
          (3 * (1 / (init : ButterWorthFilter ℚ).sample_rate)))) :=
  ⟨by norm_num [init], verify_sample_rate_accepts_iff init 0.012 (by norm_num [init])⟩

/-! ### C5: the deques compute the direct-form recurrence -/

theorem run_take (f : ButterWorthFilter K) (xs : List K) (k : Nat) :
    (run f (xs.take k)).2 = (run f xs).2.take k := by
  induction xs generalizing f k with
  | nil => simp [run]
  | cons z zs ih =>
    cases k with
    | zero => simp [run]
    | succ k => simp [run, ih]

theorem getD_reverse_take (l : List K) (k n j : Nat) (d : K) (hk : k ≤ l.length) (hjn : j < n)
    (hjk : j < k) : ((l.take k).reverse.take n).getD j d = l.getD (k - 1 - j) d := by
  have h1 : (l.take k).length = k := by simp [hk]
  rw [List.getD_eq_getElem?_getD, List.getD_eq_getElem?_getD, List.getElem?_take_of_lt hjn,
    List.getElem?_reverse (by omega), h1, List.getElem?_take_of_lt (by omega)]

theorem directForm_of_le (f : ButterWorthFilter K) (x : Nat → K) (n : Nat) (h : n ≤ f.order) :
    directForm f x n = 0 := by
  rw [directForm, dif_pos h]

theorem directForm_of_gt (f : ButterWorthFilter K) (x : Nat → K) (n : Nat) (h : f.order < n) :
    directForm f x n = (∑ i in Finset.range (f.order + 1), f.b.getD i 0 * x (n - i))
      - ∑ j in Finset.range f.order, f.a.getD (j + 1) 0 * directForm f x (n - (j + 1)) := by
  rw [directForm, dif_neg (by omega)]
  congr 1
  exact Fin.sum_univ_eq_sum_range (fun j => f.a.getD (j + 1) 0 * directForm f x (n - (j + 1))) f.order

theorem historyValue_directForm (f : ButterWorthFilter K) (x : Nat → K) (m : Nat) :
    historyValue (if m < f.order then (.ok (false, none) : Outcome K)
      else .ok (true, some (directForm f x (m + 1)))) = directForm f x (m + 1) := by
  split_ifs with h
  · rw [directForm_of_le f x (m + 1) h]; rfl
  · rfl

/-- Call number `k + 1` of a run from a verified object with empty histories
returns the value of the direct-form recurrence once warm-up is over. -/
theorem run_outcome_directForm (g : ButterWorthFilter K) (hv : g.sample_rate_verified = true)
    (hwf : WellFormed g) (hx : g.x_buf = []) (hy : g.y_buf = []) (xs : List K) (k : Nat)
    (hk : k < xs.length) :
    (run g xs).2[k]? = some (if k < g.order then .ok (false, none)
      else .ok (true, some (directForm g (fun i => xs.getD (i - 1) 0) (k + 1)))) := by
  induction k using Nat.strong_induction_on with
  | _ k ih =>
    have hget : xs[k]? = some (xs[k]) := List.getElem?_eq_getElem hk
    rw [run_outcome g hv hwf hx hy xs k _ hget]
    by_cases hko : k < g.order
    · simp [hko]
    · rw [if_neg hko, if_neg hko]
      have hst := run_state g hv hwf hx hy (xs.take k)
      rw [run_take] at hst
      generalize (run g (xs.take k)).1 = S at hst ⊢
      have hSo : S.order = g.order := by rw [hst]
      have hSa : S.a = g.a := by rw [hst]
      have hSb : S.b = g.b := by rw [hst]
      have hSx : ∀ j, j < g.order → S.x_buf.getD j 0 = xs.getD (k - 1 - j) 0 := by
        intro j hj
        rw [hst]
        exact getD_reverse_take xs k g.order j 0 (by omega) hj (by omega)
      have hSy : ∀ j, j < g.order → S.y_buf.getD j 0
          = directForm g (fun i => xs.getD (i - 1) 0) (k - j) := by
        intro j hj
        have hlen := run_length g xs
        rw [hst]
        show ((List.map historyValue (List.take k (run g xs).2)).reverse.take g.order).getD j 0 = _
        rw [List.map_take, getD_reverse_take _ k g.order j 0 (by simp [hlen]; omega) hj (by omega),
          List.getD_eq_getElem?_getD, List.getElem?_map, ih (k - 1 - j) (by omega) (by omega)]
        have hidx : k - 1 - j + 1 = k - j := by omega
        rw [Option.map_some', Option.getD_some, historyValue_directForm, hidx]
      rw [differenceEquation_eq_range, directForm_of_gt _ _ _ (by omega), Finset.sum_range_succ',
        hSo, hSa, hSb]
      have hxk : xs.getD (k + 1 - 0 - 1) 0 = xs[k] := by
        simp [List.getD_eq_getElem?_getD, hget]
      have hsum : ∀ j ∈ Finset.range g.order,
          g.b.getD (j + 1) 0 * S.x_buf.getD j 0 - g.a.getD (j + 1) 0 * S.y_buf.getD j 0
          = g.b.getD (j + 1) 0 * xs.getD (k + 1 - (j + 1) - 1) 0
            - g.a.getD (j + 1) 0 * directForm g (fun i => xs.getD (i - 1) 0) (k + 1 - (j + 1)) := by
        intro j hj
        have hj2 : j < g.order := Finset.mem_range.mp hj
        have e1 : k + 1 - (j + 1) - 1 = k - 1 - j := by omega
        have e2 : k + 1 - (j + 1) = k - j := by omega
        rw [hSx j hj2, hSy j hj2, e1, e2]
      rw [Finset.sum_congr rfl hsum, Finset.sum_sub_distrib]
      simp only [hxk]
      congr 4
      ring



theorem directForm_flag (f : ButterWorthFilter K) (v : Bool) (x : Nat → K) (n : Nat) :
    directForm { f with sample_rate_verified := v } x n = directForm f x n := by
  induction n using Nat.strong_induction_on with
  | _ n ih =>
    by_cases h : n ≤ f.order
    · rw [directForm_of_le f x n h, directForm_of_le { f with sample_rate_verified := v } x n h]
    · have hgt : f.order < n := by omega
      rw [directForm_of_gt f x n hgt, directForm_of_gt { f with sample_rate_verified := v } x n hgt]
      congr 1
      apply Finset.sum_congr rfl
      intro j _
      show f.a.getD (j + 1) 0 * _ = _
      rw [ih (n - (j + 1)) (by omega)]

theorem init_wellFormed : WellFormed (init : ButterWorthFilter K) := ⟨rfl, rfl⟩

theorem init_isFresh : IsFresh (init : ButterWorthFilter K) := ⟨rfl, rfl, rfl⟩

theorem verify_init_ok : (verify_sample_rate (init : ButterWorthFilter K) 0.01).2 = .ok () := by
  norm_num [verify_sample_rate, init]

theorem directForm_init_three (x : Nat → K) :
    directForm init x 3 = 0.020083365564211 * x 3 + 0.040166731128423 * x 2
      + 0.020083365564211 * x 1 := by
  have h3 : (init : ButterWorthFilter K).order < 3 := by simp [init]
  have h2 : 2 ≤ (init : ButterWorthFilter K).order := by simp [init]
  have h1 : 1 ≤ (init : ButterWorthFilter K).order := by simp [init]
  rw [directForm_of_gt _ _ _ h3]
  have ho : (init : ButterWorthFilter K).order = 2 := rfl
  rw [ho]
  simp only [Finset.sum_range_succ, Finset.sum_range_zero]
  have e2 := directForm_of_le init x 2 h2
  have e1 := directForm_of_le init x 1 h1
  norm_num [e1, e2]
  simp [init]
  ring

/-- C5. For every input sequence `x_1, x_2, ...` fed to a fresh object on which
`verify_sample_rate` has succeeded, and every `n > order`, the `n`-th call of
`update` returns `true` with `y = s_n`, where `s` is the direct-form recurrence
`directForm` (`s_k = 0` for `k ≤ order`,
`s_n = Σ_{i=0..order} b[i]*x_{n-i} - Σ_{i=1..order} a[i]*s_{n-i}` for `n > order`). -/
theorem update_refines_directForm (f : ButterWorthFilter K) (dt : K) (xs : List K) (n : Nat)
    (hwf : WellFormed f) (hfresh : IsFresh f) (hver : (verify_sample_rate f dt).2 = .ok ())
    (hn : f.order < n) (hlen : n ≤ xs.length) :
    (run (verify_sample_rate f dt).1 xs).2[n - 1]? =
      some (.ok (true, some (directForm f (fun k => xs.getD (k - 1) 0) n))) := by
  obtain ⟨hv, hwf2, hx, hy, ho⟩ := verified_fresh f dt hwf hfresh hver
  have hidx : n - 1 + 1 = n := by omega
  rw [run_outcome_directForm _ hv hwf2 hx hy xs (n - 1) (by omega), ho,
    if_neg (by omega), hidx, verify_ok_state f dt hver, directForm_flag]

/-- C5 at the reference object over `ℚ`, verified with `dt = 0.01`, inputs
`1, 2, 3, 4`, fourth call. -/
theorem update_refines_directForm_witness :
    WellFormed (init : ButterWorthFilter ℚ) ∧ IsFresh (init : ButterWorthFilter ℚ) ∧
    (verify_sample_rate (init : ButterWorthFilter ℚ) 0.01).2 = .ok () ∧
    (init : ButterWorthFilter ℚ).order < 4 ∧ 4 ≤ [(1 : ℚ), 2, 3, 4].length ∧
    (run (verify_sample_rate (init : ButterWorthFilter ℚ) 0.01).1 [1, 2, 3, 4]).2[4 - 1]? =
      some (.ok (true, some (directForm init (fun k => [(1 : ℚ), 2, 3, 4].getD (k - 1) 0) 4))) :=
  ⟨init_wellFormed, init_isFresh, verify_init_ok, by decide, by decide,
   update_refines_directForm init 0.01 [1, 2, 3, 4] 4 init_wellFormed init_isFresh
     verify_init_ok (by decide) (by decide)⟩

/-! ### C6: the concrete scenario -/

/-- The reference object, verified with `dt = 0.01` and fed three inputs: two
warm-up returns, then the feed-forward sum over all three inputs. -/
theorem scenario_outcomes (x1 x2 x3 : K) :
    (run (verify_sample_rate (init : ButterWorthFilter K) 0.01).1 [x1, x2, x3]).2[0]?
      = some (.ok (false, none)) ∧
    (run (verify_sample_rate (init : ButterWorthFilter K) 0.01).1 [x1, x2, x3]).2[1]?
      = some (.ok (false, none)) ∧
    (run (verify_sample_rate (init : ButterWorthFilter K) 0.01).1 [x1, x2, x3]).2[2]?
      = some (.ok (true, some (0.020083365564211 * x3 + 0.040166731128423 * x2
          + 0.020083365564211 * x1))) := by
  obtain ⟨hv, hwf2, hx, hy, ho⟩ :=
    verified_fresh (init : ButterWorthFilter K) 0.01 init_wellFormed init_isFresh verify_init_ok
  have ho2 : (verify_sample_rate (init : ButterWorthFilter K) 0.01).1.order = 2 := ho
  refine ⟨?_, ?_, ?_⟩
  · rw [run_outcome_directForm _ hv hwf2 hx hy [x1, x2, x3] 0 (by simp), ho2, if_pos (by omega)]
  · rw [run_outcome_directForm _ hv hwf2 hx hy [x1, x2, x3] 1 (by simp), ho2, if_pos (by omega)]
  · rw [run_outcome_directForm _ hv hwf2 hx hy [x1, x2, x3] 2 (by simp), ho2, if_neg (by omega),
      verify_ok_state _ _ verify_init_ok, directForm_flag, directForm_init_three]
    simp

/-- C6, as the code behaves. For the reference object (order 2, the reference
`a`, `b`, `sample_rate = 100.0`), `verify_sample_rate(0.01)` succeeds, and of the
calls `update(1)`, `update(1)`, `update(1)` the first two return `false` and the
third returns `true` with `y = b[0] + b[1] + b[2] = 0.080333462256845`: the two
warm-up inputs are in `x_buf` and contribute `b[1]*1 + b[2]*1`. -/
theorem scenario_third_call :
    (verify_sample_rate (init : ButterWorthFilter K) 0.01).2 = .ok () ∧
    (run (verify_sample_rate (init : ButterWorthFilter K) 0.01).1 [1, 1, 1]).2[0]?
      = some (.ok (false, none)) ∧
    (run (verify_sample_rate (init : ButterWorthFilter K) 0.01).1 [1, 1, 1]).2[1]?
      = some (.ok (false, none)) ∧
    (run (verify_sample_rate (init : ButterWorthFilter K) 0.01).1 [1, 1, 1]).2[2]?
      = some (.ok (true, some 0.080333462256845)) ∧
    (init : ButterWorthFilter K).b.getD 0 0 + (init : ButterWorthFilter K).b.getD 1 0
      + (init : ButterWorthFilter K).b.getD 2 0 = 0.080333462256845 := by
  obtain ⟨h0, h1, h2⟩ := scenario_outcomes (1 : K) 1 1
  refine ⟨verify_init_ok, h0, h1, ?_, ?_⟩
  · rw [h2]; norm_num
  · norm_num [init]

/-- C6 as stated fails: over `ℚ` the third call of the scenario does not return
`y = b[0]*1 = 0.020083365564211`. -/
theorem scenario_third_call_not_b0 :
    (verify_sample_rate (init : ButterWorthFilter ℚ) 0.01).2 = .ok () ∧
    (run (verify_sample_rate (init : ButterWorthFilter ℚ) 0.01).1 [1, 1, 1]).2[2]?
      ≠ some (.ok (true, some 0.020083365564211)) := by
  refine ⟨verify_init_ok, ?_⟩
  rw [(scenario_outcomes (1 : ℚ) 1 1).2.2]
  norm_num

/-! ### C7: the response to a constant input -/

theorem directForm_init_step (x : Nat → K) (n : Nat) :
    directForm init x (n + 3) = 0.020083365564211 * x (n + 3) + 0.040166731128423 * x (n + 2)
      + 0.020083365564211 * x (n + 1)
      - (-1.561018075800718 * directForm init x (n + 2)
          + 0.641351538057563 * directForm init x (n + 1)) := by
  have ho : (init : ButterWorthFilter K).order = 2 := rfl
  have ha : (init : ButterWorthFilter K).a
      = [1.000000000000000, -1.561018075800718, 0.641351538057563] := rfl
  have hb : (init : ButterWorthFilter K).b
      = [0.020083365564211, 0.040166731128423, 0.020083365564211] := rfl
  rw [directForm_of_gt _ _ _ (by rw [ho]; omega), ho, ha, hb]
  simp only [Finset.sum_range_succ, Finset.sum_range_zero, List.getD_cons_zero,
    List.getD_cons_succ, zero_add, Nat.sub_zero, Nat.reduceAdd, Nat.add_sub_add_right,
    Nat.reduceSub, Nat.add_sub_cancel]
  have e1 : n + 3 - 1 = n + 2 := by omega
  have e2 : n + 3 - 2 = n + 1 := by omega
  rw [e1, e2]

theorem directForm_congr (f : ButterWorthFilter K) (x z : Nat → K) (n : Nat)
    (h : ∀ i, 1 ≤ i → i ≤ n → x i = z i) : directForm f x n = directForm f z n := by
  induction n using Nat.strong_induction_on with
  | _ n ih =>
    by_cases hle : n ≤ f.order
    · rw [directForm_of_le f x n hle, directForm_of_le f z n hle]
    · have hgt : f.order < n := by omega
      rw [directForm_of_gt f x n hgt, directForm_of_gt f z n hgt]
      congr 1
      · apply Finset.sum_congr rfl
        intro i hi
        have hi2 : i < f.order + 1 := Finset.mem_range.mp hi
        rw [h (n - i) (by omega) (by omega)]
      · apply Finset.sum_congr rfl
        intro j hj
        have hj2 : j < f.order := Finset.mem_range.mp hj
        rw [ih (n - (j + 1)) (by omega) (fun i h1 h2 => h i h1 (by omega))]

/-- A real sequence obeying the homogeneous reference recurrence tends to `0`: the
form `u^2 - 1.561018075800718*u*v + 0.641351538057563*v^2` of two consecutive
terms is positive definite and shrinks by the factor `0.641351538057563` at each
step. -/
theorem tendsto_zero_of_reference_recurrence (e : ℕ → ℝ)
    (h : ∀ n, e (n + 2) = 1.561018075800718 * e (n + 1) - 0.641351538057563 * e n) :
    Filter.Tendsto e Filter.atTop (nhds 0) := by
  have hQ : ∀ n, e (n + 1) ^ 2 - 1.561018075800718 * e (n + 1) * e n
        + 0.641351538057563 * e n ^ 2
      = 0.641351538057563 ^ n * (e 1 ^ 2 - 1.561018075800718 * e 1 * e 0
        + 0.641351538057563 * e 0 ^ 2) := by
    intro n
    induction n with
    | zero => simp
    | succ n ih =>
      have h2 : e (n + 1 + 1) = 1.561018075800718 * e (n + 1) - 0.641351538057563 * e n := h n
      have e1 : (0.641351538057563 : ℝ) ^ (n + 1) * (e 1 ^ 2 - 1.561018075800718 * e 1 * e 0
            + 0.641351538057563 * e 0 ^ 2)
          = 0.641351538057563 * (0.641351538057563 ^ n * (e 1 ^ 2
            - 1.561018075800718 * e 1 * e 0 + 0.641351538057563 * e 0 ^ 2)) := by ring
      rw [e1, ← ih, h2]
      ring
  have hb : ∀ n, e (n + 1) ^ 2 ≤ 100 * (0.641351538057563 ^ n *
      (e 1 ^ 2 - 1.561018075800718 * e 1 * e 0 + 0.641351538057563 * e 0 ^ 2)) := by
    intro n
    rw [← hQ n]
    nlinarith [sq_nonneg (e (n + 1) - 4 / 5 * e n), sq_nonneg (e (n + 1)), sq_nonneg (e n)]
  have hlim : Filter.Tendsto (fun n : ℕ => 100 * ((0.641351538057563 : ℝ) ^ n *
      (e 1 ^ 2 - 1.561018075800718 * e 1 * e 0 + 0.641351538057563 * e 0 ^ 2)))
      Filter.atTop (nhds 0) := by
    have hp := tendsto_pow_atTop_nhds_zero_of_lt_one
      (show (0 : ℝ) ≤ 0.641351538057563 by norm_num) (show (0.641351538057563 : ℝ) < 1 by norm_num)
    simpa using (hp.mul_const (e 1 ^ 2 - 1.561018075800718 * e 1 * e 0
      + 0.641351538057563 * e 0 ^ 2)).const_mul 100
  have hsq : Filter.Tendsto (fun n : ℕ => e (n + 1) ^ 2) Filter.atTop (nhds 0) :=
    tendsto_of_tendsto_of_tendsto_of_le_of_le tendsto_const_nhds hlim
      (fun n => sq_nonneg _) hb
  have habs : Filter.Tendsto (fun n : ℕ => |e (n + 1)|) Filter.atTop (nhds 0) := by
    have := hsq.sqrt
    simpa [Real.sqrt_sq_eq_abs] using this
  have hshift : Filter.Tendsto (fun n : ℕ => e (n + 1)) Filter.atTop (nhds 0) :=
    (tendsto_zero_iff_abs_tendsto_zero _).mpr habs
  exact (Filter.tendsto_add_atTop_iff_nat 1).mp hshift

/-- C7. Over the reals, with the reference coefficients: fed the constant input
`c` at every call, a fresh object on which `verify_sample_rate` has succeeded
returns `true` with a value `y n` at every call `n > 2`, and `y n` tends to
`c * (b[0]+b[1]+b[2]) / (a[0]+a[1]+a[2])` as `n` grows; that limit is `c` itself,
so for `c = 1` the outputs tend to `1.0`. -/
theorem dc_gain_limit (c dt : ℝ)
    (hver : (verify_sample_rate (init : ButterWorthFilter ℝ) dt).2 = .ok ()) :
    ∃ y : ℕ → ℝ,
      (∀ N n : ℕ, 2 < n → n ≤ N →
        (run (verify_sample_rate (init : ButterWorthFilter ℝ) dt).1 (List.replicate N c)).2[n - 1]?
          = some (.ok (true, some (y n)))) ∧
      Filter.Tendsto y Filter.atTop
        (nhds (c * (init : ButterWorthFilter ℝ).b.sum / (init : ButterWorthFilter ℝ).a.sum)) ∧
      c * (init : ButterWorthFilter ℝ).b.sum / (init : ButterWorthFilter ℝ).a.sum = c := by
  have hgain : c * (init : ButterWorthFilter ℝ).b.sum / (init : ButterWorthFilter ℝ).a.sum = c := by
    norm_num [init]
  refine ⟨directForm init (fun _ => c), ?_, ?_, hgain⟩
  · intro N n hn hN
    obtain ⟨hv, hwf2, hx, hy, ho⟩ := verified_fresh init dt init_wellFormed init_isFresh hver
    have ho2 : (verify_sample_rate (init : ButterWorthFilter ℝ) dt).1.order = 2 := ho
    have hidx : n - 1 + 1 = n := by omega
    rw [run_outcome_directForm _ hv hwf2 hx hy (List.replicate N c) (n - 1) (by simp; omega),
      ho2, if_neg (by omega), hidx, verify_ok_state init dt hver, directForm_flag]
    congr 4
    apply directForm_congr
    intro i h1 h2
    rw [List.getD_eq_getElem?_getD, List.getElem?_replicate, if_pos (by omega)]
    rfl
  · rw [hgain]
    have hrec : ∀ n, (directForm init (fun _ => c) (n + 2 + 1) - c)
        = 1.561018075800718 * (directForm init (fun _ => c) (n + 1 + 1) - c)
          - 0.641351538057563 * (directForm init (fun _ => c) (n + 1) - c) := by
      intro n
      rw [directForm_init_step (fun _ => c) n]
      ring
    have h0 := tendsto_zero_of_reference_recurrence
      (fun n => directForm init (fun _ => c) (n + 1) - c) hrec
    have h1 : Filter.Tendsto (fun n => directForm (init : ButterWorthFilter ℝ) (fun _ => c) (n + 1))
        Filter.atTop (nhds c) := tendsto_sub_nhds_zero_iff.mp h0
    exact (Filter.tendsto_add_atTop_iff_nat 1).mp h1

/-- C7 at `c = 1`, verified with `dt = 0.01`. -/
theorem dc_gain_limit_witness :
    (verify_sample_rate (init : ButterWorthFilter ℝ) 0.01).2 = .ok () ∧
    ∃ y : ℕ → ℝ,
      (∀ N n : ℕ, 2 < n → n ≤ N →
        (run (verify_sample_rate (init : ButterWorthFilter ℝ) 0.01).1 (List.replicate N 1)).2[n - 1]?
          = some (.ok (true, some (y n)))) ∧
      Filter.Tendsto y Filter.atTop
        (nhds (1 * (init : ButterWorthFilter ℝ).b.sum / (init : ButterWorthFilter ℝ).a.sum)) ∧
      1 * (init : ButterWorthFilter ℝ).b.sum / (init : ButterWorthFilter ℝ).a.sum = 1 :=
  ⟨verify_init_ok, dc_gain_limit 1 0.01 verify_init_ok⟩

/-! ### C8, C9, C10: the sizes and the contents of the histories -/

/-- Whether it throws or not, `verify_sample_rate` changes the flag only. -/
theorem verify_state (f : ButterWorthFilter K) (dt : K) :
    (verify_sample_rate f dt).1 =
      { f with
        sample_rate_verified := decide (|dt - 1.0 / f.sample_rate| < 0.49 * (1.0 / f.sample_rate)) } := by
  unfold verify_sample_rate
  dsimp only
  split_ifs <;> rfl

/-- In every object reachable from a fresh one the configuration is the initial
one and the two deques have one length, at most `order`. -/
theorem reachable_inv (f0 g : ButterWorthFilter K) (hwf : WellFormed f0) (hfresh : IsFresh f0)
    (hr : Reachable f0 g) :
    g.order = f0.order ∧ g.a = f0.a ∧ g.b = f0.b ∧
    g.x_buf.length = g.y_buf.length ∧ g.x_buf.length ≤ g.order := by
  induction hr with
  | start => simp [hfresh.1, hfresh.2.1]
  | verify g dt _ ih => rw [verify_state]; exact ih
  | update g x _ ih =>
    obtain ⟨ho, ha, hb, hxy, hle⟩ := ih
    by_cases hv : g.sample_rate_verified = true
    · have hwfg : WellFormed g := by
        unfold WellFormed; rw [ha, hb, ho]; exact hwf
      rw [update_state g x hv hwfg hxy hle]
      refine ⟨ho, ha, hb, ?_, ?_⟩
      · simp [hxy]
      · simp
    · have hv2 : g.sample_rate_verified = false := by simpa using hv
      rw [update_unverified g x hv2]
      exact ⟨ho, ha, hb, hxy, hle⟩

theorem pushBounded_eq_take (n : Nat) (v : K) (buf : List K) (h : buf.length ≤ n) :
    pushBounded n v buf = (v :: buf).take n := by
  unfold pushBounded
  split_ifs with hlt
  · have hn : n = buf.length := by simp at hlt; omega
    rw [hn, dropLast_cons_eq_take]
  · rw [List.take_of_length_le (by omega)]

/-- C8, as the code behaves. On a verified object reachable from a fresh one
every call of `update` returns normally, and afterwards `x_buf` and `y_buf` have
one length, at most `order`: exactly `order` when the call returned `true`, one
more than before the call when it returned `false` (a warm-up call). -/
theorem update_postcondition (f0 g : ButterWorthFilter K) (x : K) (hwf : WellFormed f0)
    (hfresh : IsFresh f0) (hr : Reachable f0 g) (hv : g.sample_rate_verified = true) :
    ∃ (ready : Bool) (y : Option K), (update g x).2 = .ok (ready, y) ∧
      (update g x).1.x_buf.length = (update g x).1.y_buf.length ∧
      (update g x).1.x_buf.length = (if ready then g.order else g.x_buf.length + 1) ∧
      (update g x).1.y_buf.length = (if ready then g.order else g.y_buf.length + 1) ∧
      (update g x).1.x_buf.length ≤ g.order ∧ (update g x).1.order = g.order := by
  obtain ⟨ho, ha, hb, hxy, hle⟩ := reachable_inv f0 g hwf hfresh hr
  have hwfg : WellFormed g := by
    unfold WellFormed; rw [ha, hb, ho]; exact hwf
  by_cases hlt : g.x_buf.length < g.order
  · refine ⟨false, none, ?_⟩
    rw [update_warm g x hv hlt]
    refine ⟨rfl, ?_, ?_, ?_, ?_, rfl⟩
    · simpa using hxy
    · simp
    · simp
    · simpa using hlt
  · refine ⟨true, some (differenceEquation g x), ?_⟩
    rw [update_steady g x hv hwfg (by omega) (by omega)]
    refine ⟨rfl, ?_, ?_, ?_, ?_, rfl⟩
    · simp; omega
    · simp; omega
    · simp; omega
    · simp

/-- C8 at the fresh reference object over `ℚ`, verified with `dt = 0.01`, input `1`. -/
theorem update_postcondition_witness :
    WellFormed (init : ButterWorthFilter ℚ) ∧ IsFresh (init : ButterWorthFilter ℚ) ∧
    Reachable (init : ButterWorthFilter ℚ) (verify_sample_rate init 0.01).1 ∧
    (verify_sample_rate (init : ButterWorthFilter ℚ) 0.01).1.sample_rate_verified = true ∧
    ∃ (ready : Bool) (y : Option ℚ),
      (update (verify_sample_rate (init : ButterWorthFilter ℚ) 0.01).1 1).2 = .ok (ready, y) ∧
      (update (verify_sample_rate (init : ButterWorthFilter ℚ) 0.01).1 1).1.x_buf.length
        = (update (verify_sample_rate (init : ButterWorthFilter ℚ) 0.01).1 1).1.y_buf.length ∧
      (update (verify_sample_rate (init : ButterWorthFilter ℚ) 0.01).1 1).1.x_buf.length
        = (if ready then (verify_sample_rate (init : ButterWorthFilter ℚ) 0.01).1.order
            else (verify_sample_rate (init : ButterWorthFilter ℚ) 0.01).1.x_buf.length + 1) ∧
      (update (verify_sample_rate (init : ButterWorthFilter ℚ) 0.01).1 1).1.y_buf.length
        = (if ready then (verify_sample_rate (init : ButterWorthFilter ℚ) 0.01).1.order
            else (verify_sample_rate (init : ButterWorthFilter ℚ) 0.01).1.y_buf.length + 1) ∧
      (update (verify_sample_rate (init : ButterWorthFilter ℚ) 0.01).1 1).1.x_buf.length
        ≤ (verify_sample_rate (init : ButterWorthFilter ℚ) 0.01).1.order ∧
      (update (verify_sample_rate (init : ButterWorthFilter ℚ) 0.01).1 1).1.order
        = (verify_sample_rate (init : ButterWorthFilter ℚ) 0.01).1.order :=
  have hv : (verify_sample_rate (init : ButterWorthFilter ℚ) 0.01).1.sample_rate_verified = true :=
    (verified_fresh init 0.01 init_wellFormed init_isFresh verify_init_ok).1
  ⟨init_wellFormed, init_isFresh, Reachable.verify init 0.01 Reachable.start, hv,
   update_postcondition init (verify_sample_rate init 0.01).1 1 init_wellFormed init_isFresh
     (Reachable.verify init 0.01 Reachable.start) hv⟩

/-- C8 as stated fails: on the fresh reference object over `ℚ`, verified with
`dt = 0.01`, the first call `update(1)` returns normally and leaves `x_buf` and
`y_buf` with one entry each, while `order` is 2. -/
theorem update_warm_up_lengths_not_order :
    (verify_sample_rate (init : ButterWorthFilter ℚ) 0.01).2 = .ok () ∧
    (update (verify_sample_rate (init : ButterWorthFilter ℚ) 0.01).1 1).2 = .ok (false, none) ∧
    (update (verify_sample_rate (init : ButterWorthFilter ℚ) 0.01).1 1).1.x_buf.length = 1 ∧
    (update (verify_sample_rate (init : ButterWorthFilter ℚ) 0.01).1 1).1.y_buf.length = 1 ∧
    (update (verify_sample_rate (init : ButterWorthFilter ℚ) 0.01).1 1).1.order = 2 ∧
    ¬ ((update (verify_sample_rate (init : ButterWorthFilter ℚ) 0.01).1 1).1.x_buf.length
          = (update (verify_sample_rate (init : ButterWorthFilter ℚ) 0.01).1 1).1.order ∧
       (update (verify_sample_rate (init : ButterWorthFilter ℚ) 0.01).1 1).1.y_buf.length
          = (update (verify_sample_rate (init : ButterWorthFilter ℚ) 0.01).1 1).1.order) := by
  obtain ⟨hv, -, hx, hy, ho⟩ :=
    verified_fresh (init : ButterWorthFilter ℚ) 0.01 init_wellFormed init_isFresh verify_init_ok
  have ho2 : (verify_sample_rate (init : ButterWorthFilter ℚ) 0.01).1.order = 2 := ho
  have hw := update_warm (verify_sample_rate (init : ButterWorthFilter ℚ) 0.01).1 1 hv
    (by rw [hx, ho2]; decide)
  rw [hw]
  simp [hx, hy, ho2]
  exact verify_init_ok

/-- C9. After the `N` calls of `update` of any input sequence of length `N` on a
fresh object on which `verify_sample_rate` has succeeded, `x_buf` and `y_buf`
both have length `min(N, order)`; for `N ≥ order` that is `order`. -/
theorem history_lengths (f : ButterWorthFilter K) (dt : K) (xs : List K) (hwf : WellFormed f)
    (hfresh : IsFresh f) (hver : (verify_sample_rate f dt).2 = .ok ()) :
    (run (verify_sample_rate f dt).1 xs).1.x_buf.length = min xs.length f.order ∧
    (run (verify_sample_rate f dt).1 xs).1.y_buf.length = min xs.length f.order ∧
    (f.order ≤ xs.length →
      (run (verify_sample_rate f dt).1 xs).1.x_buf.length = f.order ∧
      (run (verify_sample_rate f dt).1 xs).1.y_buf.length = f.order) := by
  obtain ⟨hv, hwf2, hx, hy, ho⟩ := verified_fresh f dt hwf hfresh hver
  have hst := run_state _ hv hwf2 hx hy xs
  have hlen := run_length (verify_sample_rate f dt).1 xs
  have h1 : (run (verify_sample_rate f dt).1 xs).1.x_buf.length = min xs.length f.order := by
    rw [hst]; simp [ho, Nat.min_comm]
  have h2 : (run (verify_sample_rate f dt).1 xs).1.y_buf.length = min xs.length f.order := by
    rw [hst]; simp [ho, hlen, Nat.min_comm]
  refine ⟨h1, h2, fun hN => ?_⟩
  rw [h1, h2, Nat.min_eq_right hN]
  exact ⟨rfl, rfl⟩

/-- C9 at the reference object over `ℚ`, verified with `dt = 0.01`, five inputs. -/
theorem history_lengths_witness :
    WellFormed (init : ButterWorthFilter ℚ) ∧ IsFresh (init : ButterWorthFilter ℚ) ∧
    (verify_sample_rate (init : ButterWorthFilter ℚ) 0.01).2 = .ok () ∧
    (run (verify_sample_rate (init : ButterWorthFilter ℚ) 0.01).1 [1, 2, 3, 4, 5]).1.x_buf.length
      = min [(1 : ℚ), 2, 3, 4, 5].length (init : ButterWorthFilter ℚ).order ∧
    (run (verify_sample_rate (init : ButterWorthFilter ℚ) 0.01).1 [1, 2, 3, 4, 5]).1.y_buf.length
      = min [(1 : ℚ), 2, 3, 4, 5].length (init : ButterWorthFilter ℚ).order ∧
    ((init : ButterWorthFilter ℚ).order ≤ [(1 : ℚ), 2, 3, 4, 5].length →
      (run (verify_sample_rate (init : ButterWorthFilter ℚ) 0.01).1 [1, 2, 3, 4, 5]).1.x_buf.length
        = (init : ButterWorthFilter ℚ).order ∧
      (run (verify_sample_rate (init : ButterWorthFilter ℚ) 0.01).1 [1, 2, 3, 4, 5]).1.y_buf.length
        = (init : ButterWorthFilter ℚ).order) :=
  ⟨init_wellFormed, init_isFresh, verify_init_ok,
   history_lengths init 0.01 [1, 2, 3, 4, 5] init_wellFormed init_isFresh verify_init_ok⟩

theorem take_min_length (l : List K) (n : Nat) : l.take (min l.length n) = l.take n := by
  rcases Nat.le_total l.length n with h | h
  · rw [Nat.min_eq_left h, List.take_of_length_le (le_refl _), List.take_of_length_le h]
  · rw [Nat.min_eq_right h]

/-- C10. After the calls `update(x_1), ..., update(x_N)` on a fresh object on
which `verify_sample_rate` has succeeded, `x_buf` is `[x_N, x_{N-1}, ...]` cut to
its first `min(N, order)` entries and `y_buf` is `[v_N, v_{N-1}, ...]` cut to its
first `min(N, order)` entries, `v_k` being the `y` of call `k` when it returned
`true` and the placeholder `0.0` otherwise.  And on every verified object reachable
from a fresh one, `update` acts on both deques as "push the new value to the
front, then drop the oldest if the size exceeds `order`". -/
theorem history_contents (f : ButterWorthFilter K) (dt : K) (xs : List K) (hwf : WellFormed f)
    (hfresh : IsFresh f) (hver : (verify_sample_rate f dt).2 = .ok ()) :
    (run (verify_sample_rate f dt).1 xs).1.x_buf = xs.reverse.take (min xs.length f.order) ∧
    (run (verify_sample_rate f dt).1 xs).1.y_buf =
      ((run (verify_sample_rate f dt).1 xs).2.map historyValue).reverse.take
        (min xs.length f.order) ∧
    (∀ (g : ButterWorthFilter K) (x : K), Reachable f g → g.sample_rate_verified = true →
      (update g x).1.x_buf = pushBounded g.order x g.x_buf ∧
      (update g x).1.y_buf = pushBounded g.order (historyValue (update g x).2) g.y_buf) := by
  obtain ⟨hv, hwf2, hx, hy, ho⟩ := verified_fresh f dt hwf hfresh hver
  have hst := run_state _ hv hwf2 hx hy xs
  have hlen := run_length (verify_sample_rate f dt).1 xs
  refine ⟨?_, ?_, ?_⟩
  · have h := congrArg ButterWorthFilter.x_buf hst
    rw [h]
    show xs.reverse.take (verify_sample_rate f dt).1.order = _
    rw [ho, ← take_min_length xs.reverse f.order, List.length_reverse]
  · have h := congrArg ButterWorthFilter.y_buf hst
    rw [h]
    show ((run (verify_sample_rate f dt).1 xs).2.map historyValue).reverse.take
      (verify_sample_rate f dt).1.order = _
    rw [ho, ← take_min_length _ f.order, List.length_reverse, List.length_map, hlen]
  · intro g x hr hgv
    obtain ⟨hgo, hga, hgb, hxy, hle⟩ := reachable_inv f g hwf hfresh hr
    have hwfg : WellFormed g := by
      unfold WellFormed; rw [hga, hgb, hgo]; exact hwf
    rw [update_state g x hgv hwfg hxy hle, pushBounded_eq_take _ _ _ hle,
      pushBounded_eq_take _ _ _ (by omega)]
    exact ⟨rfl, rfl⟩

/-- C10 at the reference object over `ℚ`, verified with `dt = 0.01`, inputs
`1, 2, 3, 4`. -/
theorem history_contents_witness :
    WellFormed (init : ButterWorthFilter ℚ) ∧ IsFresh (init : ButterWorthFilter ℚ) ∧
    (verify_sample_rate (init : ButterWorthFilter ℚ) 0.01).2 = .ok () ∧
    (run (verify_sample_rate (init : ButterWorthFilter ℚ) 0.01).1 [1, 2, 3, 4]).1.x_buf
      = [(1 : ℚ), 2, 3, 4].reverse.take
          (min [(1 : ℚ), 2, 3, 4].length (init : ButterWorthFilter ℚ).order) ∧
    (run (verify_sample_rate (init : ButterWorthFilter ℚ) 0.01).1 [1, 2, 3, 4]).1.y_buf =
      ((run (verify_sample_rate (init : ButterWorthFilter ℚ) 0.01).1 [1, 2, 3, 4]).2.map
        historyValue).reverse.take
          (min [(1 : ℚ), 2, 3, 4].length (init : ButterWorthFilter ℚ).order) ∧
    (∀ (g : ButterWorthFilter ℚ) (x : ℚ), Reachable init g → g.sample_rate_verified = true →
      (update g x).1.x_buf = pushBounded g.order x g.x_buf ∧
      (update g x).1.y_buf = pushBounded g.order (historyValue (update g x).2) g.y_buf) :=
  ⟨init_wellFormed, init_isFresh, verify_init_ok,
   history_contents init 0.01 [1, 2, 3, 4] init_wellFormed init_isFresh verify_init_ok⟩

/-! ### C11: the flag over a session of calls -/

/-- `verify_sample_rate` in closed form. -/
theorem verify_eq (f : ButterWorthFilter K) (dt : K) :
    verify_sample_rate f dt =
      (if |dt - 1 / f.sample_rate| < 0.49 * (1 / f.sample_rate)
        then ({ f with sample_rate_verified := true }, .ok ())
        else ({ f with sample_rate_verified := false },
              .error (.rateMismatch (1 / f.sample_rate) dt))) := by
  have h1 : (1.0 : K) = 1 := by norm_num
  unfold verify_sample_rate
  rw [h1]
  dsimp only
  by_cases hc : |dt - 1 / f.sample_rate| < 0.49 * (1 / f.sample_rate)
  · rw [if_pos hc, decide_eq_true hc]; rfl
  · rw [if_neg hc, decide_eq_false hc]; rfl

theorem bind_ok {α β : Type} (m : Except (Fault K) α) (k : α → Except (Fault K) β)
    (r : β) (h : (m >>= k) = .ok r) : ∃ c, m = .ok c ∧ k c = .ok r := by
  cases m with
  | error e => simp [bind, Except.bind] at h
  | ok c => exact ⟨c, rfl, h⟩

/-- When the steady branch returns, it has changed the two deques only. -/
theorem steady_ok_frame (f f2 : ButterWorthFilter K) (y : K) (h : steady f = .ok (f2, y)) :
    ∃ xb yb, f2 = { f with x_buf := xb, y_buf := yb } := by
  unfold steady at h
  obtain ⟨_, -, h⟩ := bind_ok _ _ _ h
  obtain ⟨_, -, h⟩ := bind_ok _ _ _ h
  obtain ⟨_, -, h⟩ := bind_ok _ _ _ h
  obtain ⟨_, -, h⟩ := bind_ok _ _ _ h
  obtain ⟨xb, -, h⟩ := bind_ok _ _ _ h
  obtain ⟨yb, -, h⟩ := bind_ok _ _ _ h
  split_ifs at h
  exact ⟨xb, yb, by cases h; rfl⟩

/-- A call of `update` changes the two deques only. -/
theorem update_frame (f : ButterWorthFilter K) (x : K) :
    ∃ xb yb, (update f x).1 = { f with x_buf := xb, y_buf := yb } := by
  unfold update
  by_cases hv : f.sample_rate_verified = false
  · rw [if_pos hv]
    exact ⟨f.x_buf, f.y_buf, rfl⟩
  · rw [if_neg hv]
    dsimp only
    by_cases hle : (x :: f.x_buf).length ≤ f.order
    · rw [if_pos hle]
      exact ⟨x :: f.x_buf, 0 :: f.y_buf, rfl⟩
    · rw [if_neg hle]
      split
      · rename_i f2 y hs
        obtain ⟨xb, yb, rfl⟩ := steady_ok_frame _ _ _ hs
        exact ⟨xb, yb, rfl⟩
      · exact ⟨x :: f.x_buf, f.y_buf, rfl⟩

theorem update_flag (f : ButterWorthFilter K) (x : K) :
    (update f x).1.sample_rate_verified = f.sample_rate_verified := by
  obtain ⟨xb, yb, h⟩ := update_frame f x
  rw [h]

theorem update_sample_rate (f : ButterWorthFilter K) (x : K) :
    (update f x).1.sample_rate = f.sample_rate := by
  obtain ⟨xb, yb, h⟩ := update_frame f x
  rw [h]

theorem session_append (f : ButterWorthFilter K) (cs ds : List (Call K)) :
    session f (cs ++ ds)
      = ((session (session f cs).1 ds).1, (session f cs).2 ++ (session (session f cs).1 ds).2) := by
  induction cs generalizing f with
  | nil => simp [session]
  | cons c cs ih => simp [session, ih]

/-- Over a session whose `verify_sample_rate` calls all have accepted intervals,
a flag that is true stays true, and no call throws the exception of the
unverified case. -/
theorem session_keeps_flag (cs : List (Call K)) : ∀ (g : ButterWorthFilter K),
    g.sample_rate_verified = true →
    (∀ dt, Call.verify dt ∈ cs → |dt - 1 / g.sample_rate| < 0.49 * (1 / g.sample_rate)) →
    (session g cs).1.sample_rate_verified = true ∧
    (session g cs).1.sample_rate = g.sample_rate ∧
    ∀ r ∈ (session g cs).2, r ≠ .error .notVerified := by
  induction cs with
  | nil => intro g hv _; simp [session, hv]
  | cons c cs ih =>
    intro g hv hvalid
    have hstep : (perform g c).1.sample_rate_verified = true ∧
        (perform g c).1.sample_rate = g.sample_rate ∧ (perform g c).2 ≠ .error .notVerified := by
      cases c with
      | verify dt =>
        have hc := hvalid dt (List.mem_cons_self _ _)
        simp only [perform]
        rw [verify_eq, if_pos hc]
        exact ⟨rfl, rfl, by simp [Except.map]⟩
      | process x =>
        simp only [perform]
        refine ⟨by rw [update_flag]; exact hv, ?_, ?_⟩
        · exact update_sample_rate g x
        · intro h
          have h2 : (update g x).2 = .error .notVerified := by
            cases hu : (update g x).2 with
            | ok o => rw [hu] at h; simp [Except.map] at h
            | error e => rw [hu] at h; simpa [Except.map] using h
          rw [update_notVerified_iff] at h2
          rw [hv] at h2
          cases h2
    obtain ⟨h1, h2, h3⟩ := hstep
    obtain ⟨i1, i2, i3⟩ := ih (perform g c).1 h1 (by
      intro dt hdt
      rw [h2]
      exact hvalid dt (List.mem_cons_of_mem _ hdt))
    refine ⟨i1, by rw [← h2]; exact i2, ?_⟩
    intro r hr
    simp only [session, List.mem_cons] at hr
    rcases hr with rfl | hr
    · exact h3
    · exact i3 r hr

/-- C11, as the code behaves. Once a call of `verify_sample_rate` has succeeded,
the flag is true after every later call, and no later `update` throws "Sample rate
is not verified!", over every later sequence of `update` calls and of
`verify_sample_rate` calls with accepted intervals
(`|dt - 1/sample_rate| < 0.49 * (1/sample_rate)`). -/
theorem verified_stays_verified (f : ButterWorthFilter K) (dt0 : K) (cs : List (Call K))
    (hver : (verify_sample_rate f dt0).2 = .ok ())
    (hvalid : ∀ dt, Call.verify dt ∈ cs →
      |dt - 1 / f.sample_rate| < 0.49 * (1 / f.sample_rate)) :
    (∀ n, (session (verify_sample_rate f dt0).1 (cs.take n)).1.sample_rate_verified = true) ∧
    (∀ r ∈ (session (verify_sample_rate f dt0).1 cs).2, r ≠ .error .notVerified) := by
  have hst := verify_ok_state f dt0 hver
  have hv : (verify_sample_rate f dt0).1.sample_rate_verified = true := by rw [hst]
  have hsr : (verify_sample_rate f dt0).1.sample_rate = f.sample_rate := by rw [hst]
  constructor
  · intro n
    refine (session_keeps_flag (cs.take n) _ hv ?_).1
    intro dt hdt
    rw [hsr]
    exact hvalid dt (List.mem_of_mem_take hdt)
  · refine (session_keeps_flag cs _ hv ?_).2.2
    intro dt hdt
    rw [hsr]
    exact hvalid dt hdt

/-- C11 at the reference object over `ℚ`: verified with `dt = 0.01`, then
`update(1)`, `verify_sample_rate(0.012)`, `update(2)`, `update(3)`. -/
theorem verified_stays_verified_witness :
    (verify_sample_rate (init : ButterWorthFilter ℚ) 0.01).2 = .ok () ∧
    (∀ dt : ℚ, Call.verify dt ∈ [Call.process 1, Call.verify 0.012, Call.process 2, Call.process 3] →
      |dt - 1 / (init : ButterWorthFilter ℚ).sample_rate|
        < 0.49 * (1 / (init : ButterWorthFilter ℚ).sample_rate)) ∧
    (∀ n, (session (verify_sample_rate (init : ButterWorthFilter ℚ) 0.01).1
      (([Call.process 1, Call.verify 0.012, Call.process 2, Call.process 3] : List (Call ℚ)).take
        n)).1.sample_rate_verified = true) ∧
    (∀ r ∈ (session (verify_sample_rate (init : ButterWorthFilter ℚ) 0.01).1
      [Call.process 1, Call.verify 0.012, Call.process 2, Call.process 3]).2,
      r ≠ .error .notVerified) :=
  have hvalid : ∀ dt : ℚ,
      Call.verify dt ∈ [Call.process 1, Call.verify 0.012, Call.process 2, Call.process 3] →
      |dt - 1 / (init : ButterWorthFilter ℚ).sample_rate|
        < 0.49 * (1 / (init : ButterWorthFilter ℚ).sample_rate) := by
    intro dt hdt
    have h : dt = 0.012 := by simpa using hdt
    rw [h]
    norm_num [init, abs_lt]
  ⟨verify_init_ok, hvalid, verified_stays_verified init 0.01 _ verify_init_ok hvalid⟩

/-- C11 as stated fails: on the reference object over `ℚ`,
`verify_sample_rate(0.01)` succeeds, a later `verify_sample_rate(0.03)` throws and
leaves the flag false, and the next `update(1)` throws "Sample rate is not
verified!". -/
theorem failed_verify_clears_flag :
    (verify_sample_rate (init : ButterWorthFilter ℚ) 0.01).2 = .ok () ∧
    (verify_sample_rate (init : ButterWorthFilter ℚ) 0.01).1.sample_rate_verified = true ∧
    (verify_sample_rate (verify_sample_rate (init : ButterWorthFilter ℚ) 0.01).1 0.03).2
      = .error (.rateMismatch (1 / 100) 0.03) ∧
    (verify_sample_rate (verify_sample_rate (init : ButterWorthFilter ℚ) 0.01).1
      0.03).1.sample_rate_verified = false ∧
    (update (verify_sample_rate (verify_sample_rate (init : ButterWorthFilter ℚ) 0.01).1 0.03).1
      1).2 = .error .notVerified := by
  have hst := verify_ok_state (init : ButterWorthFilter ℚ) 0.01 verify_init_ok
  have hbad : ¬ |(0.03 : ℚ) - 1 / (verify_sample_rate (init : ButterWorthFilter ℚ) 0.01).1.sample_rate|
      < 0.49 * (1 / (verify_sample_rate (init : ButterWorthFilter ℚ) 0.01).1.sample_rate) := by
    rw [hst]
    norm_num [init, abs_lt]
  have h2 := verify_eq (verify_sample_rate (init : ButterWorthFilter ℚ) 0.01).1 0.03
  rw [if_neg hbad] at h2
  refine ⟨verify_init_ok, by rw [hst], ?_, by rw [h2], ?_⟩
  · rw [h2, hst]
    norm_num [init]
  · rw [update_notVerified_iff, h2]

/-! ### C12, C13: what `verify_sample_rate` leaves alone -/

theorem eta_flag (s : ButterWorthFilter K) (h : s.sample_rate_verified = true) :
    ({ s with sample_rate_verified := true } : ButterWorthFilter K) = s := by
  cases s
  simp only [mk.injEq, true_and, and_true] at h ⊢
  exact h.symm

/-- C12. For every object `s` and every accepted interval `dt`
(`|dt - 1/sample_rate| < 0.49 * (1/sample_rate)`), a second
`verify_sample_rate(dt)` returns what the first returned and leaves the object
the first left; and on an object whose flag is already true the call returns
normally and leaves the object (flag and both deques) as it was. -/
theorem verify_sample_rate_idempotent (s : ButterWorthFilter K) (dt : K)
    (hvalid : |dt - 1 / s.sample_rate| < 0.49 * (1 / s.sample_rate)) :
    verify_sample_rate (verify_sample_rate s dt).1 dt = verify_sample_rate s dt ∧
    (verify_sample_rate s dt).2 = .ok () ∧
    (s.sample_rate_verified = true → verify_sample_rate s dt = (s, .ok ())) := by
  have h1 := verify_eq s dt
  rw [if_pos hvalid] at h1
  have h2 := verify_eq (verify_sample_rate s dt).1 dt
  rw [h1] at h2 ⊢
  rw [if_pos hvalid] at h2
  refine ⟨h2, rfl, fun hv => ?_⟩
  rw [eta_flag s hv]

/-- C12 at the reference object over `ℚ` with `dt = 0.012`. -/
theorem verify_sample_rate_idempotent_witness :
    |(0.012 : ℚ) - 1 / (init : ButterWorthFilter ℚ).sample_rate|
      < 0.49 * (1 / (init : ButterWorthFilter ℚ).sample_rate) ∧
    verify_sample_rate (verify_sample_rate (init : ButterWorthFilter ℚ) 0.012).1 0.012
      = verify_sample_rate init 0.012 ∧
    (verify_sample_rate (init : ButterWorthFilter ℚ) 0.012).2 = .ok () ∧
    ((init : ButterWorthFilter ℚ).sample_rate_verified = true →
      verify_sample_rate (init : ButterWorthFilter ℚ) 0.012 = (init, .ok ())) :=
  have hvalid : |(0.012 : ℚ) - 1 / (init : ButterWorthFilter ℚ).sample_rate|
      < 0.49 * (1 / (init : ButterWorthFilter ℚ).sample_rate) := by
    norm_num [init, abs_lt]
  ⟨hvalid, verify_sample_rate_idempotent init 0.012 hvalid⟩

/-- C13. Whether `verify_sample_rate(dt)` returns or throws "Sample rate does not
match!", `x_buf` and `y_buf` (and the configuration) are afterwards what they were
before the call.  So a later `verify_sample_rate` returns what it would have
returned without this call, and after a call that succeeds on an object whose
flag was true every later run of `update` calls is the same as without it. -/
theorem verify_sample_rate_keeps_histories (f : ButterWorthFilter K) (dt : K) :
    (verify_sample_rate f dt).1.x_buf = f.x_buf ∧
    (verify_sample_rate f dt).1.y_buf = f.y_buf ∧
    (∃ flag, (verify_sample_rate f dt).1 = { f with sample_rate_verified := flag }) ∧
    ((verify_sample_rate f dt).2 = .ok () ∨
      (verify_sample_rate f dt).2 = .error (.rateMismatch (1 / f.sample_rate) dt)) ∧
    (∀ dt2, verify_sample_rate (verify_sample_rate f dt).1 dt2 = verify_sample_rate f dt2) ∧
    (f.sample_rate_verified = true → (verify_sample_rate f dt).2 = .ok () →
      ∀ xs, run (verify_sample_rate f dt).1 xs = run f xs) := by
  have h := verify_eq f dt
  refine ⟨?_, ?_, ?_, ?_, ?_, ?_⟩
  · rw [h]; split_ifs <;> rfl
  · rw [h]; split_ifs <;> rfl
  · rw [h]; split_ifs
    · exact ⟨true, rfl⟩
    · exact ⟨false, rfl⟩
  · rw [h]; split_ifs
    · exact Or.inl rfl
    · exact Or.inr rfl
  · intro dt2
    have hsr : (verify_sample_rate f dt).1.sample_rate = f.sample_rate := by
      rw [h]; split_ifs <;> rfl
    rw [verify_eq (verify_sample_rate f dt).1 dt2, verify_eq f dt2, hsr, h]
    split_ifs <;> rfl
  · intro hv hok xs
    rw [verify_ok_state f dt hok, eta_flag f hv]

/-! ### C14: the first output after warm-up -/

/-- A run of at most `order` calls from a verified object with empty histories:
every call is a warm-up call, the inputs pile up in `x_buf` and zeros in `y_buf`. -/
theorem run_warm (g : ButterWorthFilter K) (hv : g.sample_rate_verified = true)
    (hx : g.x_buf = []) (hy : g.y_buf = []) (xs : List K) (hlen : xs.length ≤ g.order) :
    run g xs = ({ g with x_buf := xs.reverse, y_buf := List.replicate xs.length 0 },
                List.replicate xs.length (.ok (false, none))) := by
  induction xs using List.reverseRecOn with
  | nil => cases g; simp_all [run]
  | append_singleton xs x ih =>
    have hlen2 : xs.length < g.order := by simp at hlen; omega
    have hw := update_warm { g with x_buf := xs.reverse, y_buf := List.replicate xs.length 0 } x
      hv (by simpa using hlen2)
    rw [run_snoc, ih (by omega)]
    dsimp only
    rw [hw]
    simp [List.replicate_succ']
    rw [← List.replicate_succ, List.replicate_succ']

/-- C14. For every input sequence `x_1, ..., x_{order+1}` fed to a fresh object on
which `verify_sample_rate` has succeeded: after the first `order` calls `y_buf`
is `order` zeros and `x_buf` is `[x_order, ..., x_1]`, and call `order + 1`
returns `true` with `y = Σ_{i=0..order} b[i] * x_{order+1-i}`, a sum in which no
`a[i]` occurs. -/
theorem first_ready_output_feed_forward (f : ButterWorthFilter K) (dt : K) (xs : List K)
    (hwf : WellFormed f) (hfresh : IsFresh f) (hver : (verify_sample_rate f dt).2 = .ok ())
    (hlen : xs.length = f.order + 1) :
    (run (verify_sample_rate f dt).1 (xs.take f.order)).1.y_buf = List.replicate f.order 0 ∧
    (run (verify_sample_rate f dt).1 (xs.take f.order)).1.x_buf = (xs.take f.order).reverse ∧
    (run (verify_sample_rate f dt).1 xs).2[f.order]? =
      some (.ok (true, some (∑ i in Finset.range (f.order + 1),
        f.b.getD i 0 * xs.getD (f.order - i) 0))) := by
  obtain ⟨hv, hwf2, hx, hy, ho⟩ := verified_fresh f dt hwf hfresh hver
  have htake : (xs.take f.order).length = f.order := by simp [hlen]
  have hw := run_warm _ hv hx hy (xs.take f.order) (by rw [htake, ho])
  refine ⟨?_, ?_, ?_⟩
  · rw [hw, htake]
  · rw [hw]
  · rw [run_outcome_directForm _ hv hwf2 hx hy xs f.order (by omega), ho,
      if_neg (by omega), verify_ok_state f dt hver, directForm_flag,
      directForm_of_gt f _ _ (by omega)]
    have hzero : ∑ j in Finset.range f.order, f.a.getD (j + 1) 0
        * directForm f (fun i => xs.getD (i - 1) 0) (f.order + 1 - (j + 1)) = 0 := by
      apply Finset.sum_eq_zero
      intro j _
      rw [directForm_of_le f _ _ (by omega), mul_zero]
    rw [hzero, sub_zero]
    congr 4
    apply Finset.sum_congr rfl
    intro i hi
    have hi2 : i < f.order + 1 := Finset.mem_range.mp hi
    have hidx : f.order + 1 - i - 1 = f.order - i := by omega
    simp only [hidx]

/-- C14 at the reference object over `ℚ`, verified with `dt = 0.01`, inputs
`7, 8, 9`. -/
theorem first_ready_output_feed_forward_witness :
    WellFormed (init : ButterWorthFilter ℚ) ∧ IsFresh (init : ButterWorthFilter ℚ) ∧
    (verify_sample_rate (init : ButterWorthFilter ℚ) 0.01).2 = .ok () ∧
    [(7 : ℚ), 8, 9].length = (init : ButterWorthFilter ℚ).order + 1 ∧
    (run (verify_sample_rate (init : ButterWorthFilter ℚ) 0.01).1
      ([(7 : ℚ), 8, 9].take (init : ButterWorthFilter ℚ).order)).1.y_buf
      = List.replicate (init : ButterWorthFilter ℚ).order 0 ∧
    (run (verify_sample_rate (init : ButterWorthFilter ℚ) 0.01).1
      ([(7 : ℚ), 8, 9].take (init : ButterWorthFilter ℚ).order)).1.x_buf
      = ([(7 : ℚ), 8, 9].take (init : ButterWorthFilter ℚ).order).reverse ∧
    (run (verify_sample_rate (init : ButterWorthFilter ℚ) 0.01).1 [7, 8, 9]).2[
        (init : ButterWorthFilter ℚ).order]? =
      some (.ok (true, some (∑ i in Finset.range ((init : ButterWorthFilter ℚ).order + 1),
        (init : ButterWorthFilter ℚ).b.getD i 0
          * [(7 : ℚ), 8, 9].getD ((init : ButterWorthFilter ℚ).order - i) 0))) :=
  ⟨init_wellFormed, init_isFresh, verify_init_ok, rfl,
   first_ready_output_feed_forward init 0.01 [7, 8, 9] init_wellFormed init_isFresh
     verify_init_ok rfl⟩

/-! ### C15: the intervals `verify_sample_rate` accepts -/

/-- C15. With a positive `sample_rate`, every interval `dt` with
`|dt - 1/sample_rate| < 0.49 * (1/sample_rate)` (these are the intervals
`verify_sample_rate` accepts) is positive and has
`sample_rate/2 < 1/dt < 2*sample_rate`; and `verify_sample_rate` throws "Sample
rate does not match!" for every `dt ≤ 0`. -/
theorem accepted_interval_bounds (f : ButterWorthFilter K) (dt : K)
    (hrate : 0 < f.sample_rate)
    (hvalid : |dt - 1 / f.sample_rate| < 0.49 * (1 / f.sample_rate)) :
    (verify_sample_rate f dt).2 = .ok () ∧
    0 < dt ∧ f.sample_rate / 2 < 1 / dt ∧ 1 / dt < 2 * f.sample_rate ∧
    (∀ d : K, d ≤ 0 →
      (verify_sample_rate f d).2 = .error (.rateMismatch (1 / f.sample_rate) d)) := by
  have he : (0 : K) < 1 / f.sample_rate := one_div_pos.mpr hrate
  have hes : 1 / f.sample_rate * f.sample_rate = 1 := by field_simp
  obtain ⟨hlo, hhi⟩ := abs_lt.mp hvalid
  have hdt : 0 < dt := by nlinarith
  have hlo2 : 0.51 < dt * f.sample_rate := by nlinarith
  have hhi2 : dt * f.sample_rate < 1.49 := by nlinarith
  refine ⟨?_, hdt, ?_, ?_, ?_⟩
  · rw [verify_eq, if_pos hvalid]
  · rw [lt_div_iff₀ hdt]
    nlinarith
  · rw [div_lt_iff₀ hdt]
    nlinarith
  · intro d hd
    have hbad : ¬ |d - 1 / f.sample_rate| < 0.49 * (1 / f.sample_rate) := by
      intro h
      have := (abs_lt.mp h).1
      nlinarith
    rw [verify_eq, if_neg hbad]

/-- C15 at the reference object over `ℚ` with `dt = 0.012`. -/
theorem accepted_interval_bounds_witness :
    (0 : ℚ) < (init : ButterWorthFilter ℚ).sample_rate ∧
    |(0.012 : ℚ) - 1 / (init : ButterWorthFilter ℚ).sample_rate|
      < 0.49 * (1 / (init : ButterWorthFilter ℚ).sample_rate) ∧
    (verify_sample_rate (init : ButterWorthFilter ℚ) 0.012).2 = .ok () ∧
    (0 : ℚ) < 0.012 ∧ (init : ButterWorthFilter ℚ).sample_rate / 2 < 1 / 0.012 ∧
    1 / 0.012 < 2 * (init : ButterWorthFilter ℚ).sample_rate ∧
    (∀ d : ℚ, d ≤ 0 →
      (verify_sample_rate (init : ButterWorthFilter ℚ) d).2
        = .error (.rateMismatch (1 / (init : ButterWorthFilter ℚ).sample_rate) d)) :=
  have hrate : (0 : ℚ) < (init : ButterWorthFilter ℚ).sample_rate := by norm_num [init]
  have hvalid : |(0.012 : ℚ) - 1 / (init : ButterWorthFilter ℚ).sample_rate|
      < 0.49 * (1 / (init : ButterWorthFilter ℚ).sample_rate) := by
    norm_num [init, abs_lt]
  ⟨hrate, hvalid, accepted_interval_bounds init 0.012 hrate hvalid⟩

/-! ### C16: the constant history is a fixed point -/

/-- The value of the difference equation for the reference coefficients on an
object with two entries in each deque. -/
theorem differenceEquation_init (v : Bool) (x x1 x2 y1 y2 : K) :
    differenceEquation
      ({ init with sample_rate_verified := v, x_buf := [x1, x2], y_buf := [y1, y2] } :
        ButterWorthFilter K) x
      = 0.020083365564211 * x + (0.040166731128423 * x1 - -1.561018075800718 * y1)
        + (0.020083365564211 * x2 - 0.641351538057563 * y2) := by
  rw [differenceEquation_eq_range]
  show (init : ButterWorthFilter K).b.getD 0 0 * x + ∑ j in Finset.range 2,
      ((init : ButterWorthFilter K).b.getD (j + 1) 0 * [x1, x2].getD j 0
        - (init : ButterWorthFilter K).a.getD (j + 1) 0 * [y1, y2].getD j 0) = _
  simp only [Finset.sum_range_succ, Finset.sum_range_zero, init, List.getD_cons_zero,
    List.getD_cons_succ, zero_add]
  ring

/-- C16. For the reference coefficients read as exact decimals,
`a[0]+a[1]+a[2] = b[0]+b[1]+b[2] = 0.080333462256845` and `a[0] = 1`, so
`Σb/Σa = 1`; and for every `c`, on the verified object whose `x_buf` and `y_buf`
both are `order` copies of `c`, `update(c)` returns `true` with `y = c` and leaves
both deques `order` copies of `c`. -/
theorem constant_history_fixed_point (c : K) :
    (init : ButterWorthFilter K).a.sum = 0.080333462256845 ∧
    (init : ButterWorthFilter K).b.sum = 0.080333462256845 ∧
    (init : ButterWorthFilter K).a.getD 0 0 = 1 ∧
    (init : ButterWorthFilter K).b.sum / (init : ButterWorthFilter K).a.sum = 1 ∧
    update ({ init with sample_rate_verified := true,
                        x_buf := List.replicate (init : ButterWorthFilter K).order c,
                        y_buf := List.replicate (init : ButterWorthFilter K).order c } :
        ButterWorthFilter K) c
      = ({ init with sample_rate_verified := true,
                     x_buf := List.replicate (init : ButterWorthFilter K).order c,
                     y_buf := List.replicate (init : ButterWorthFilter K).order c },
         .ok (true, some c)) := by
  refine ⟨by norm_num [init], by norm_num [init], by norm_num [init], by norm_num [init], ?_⟩
  have hs := update_steady
    { init with sample_rate_verified := true, x_buf := [c, c], y_buf := [c, c] }
    c rfl ⟨rfl, rfl⟩ rfl rfl
  have hd : differenceEquation
      { init with sample_rate_verified := true, x_buf := [c, c], y_buf := [c, c] } c = c := by
    rw [differenceEquation_init]
    ring
  rw [hd] at hs
  exact hs

/-! ### C17: `update` stays within defined behaviour -/

/-- C17. In every object reachable from a fresh one by calls of
`verify_sample_rate` and `update` in any order, `x_buf` and `y_buf` have one
length, at most `order`, and `a` and `b` have length `order + 1`.  Hence a call
of `update` either throws "Sample rate is not verified!" or returns normally; and
when it enters the steady branch both deques hold `order + 1` entries after the
pushes (so every index `0..order` of `a`, `b`, `x_buf`, `y_buf` is in range and
neither `pop_back` meets an empty deque), the branch runs to `return true`, and
both deques then hold `order` entries, as the two `assert`s demand. -/
theorem reachable_update_safe (f0 g : ButterWorthFilter K) (x : K) (hwf : WellFormed f0)
    (hfresh : IsFresh f0) (hr : Reachable f0 g) :
    g.x_buf.length = g.y_buf.length ∧ g.x_buf.length ≤ g.order ∧
    g.a.length = g.order + 1 ∧ g.b.length = g.order + 1 ∧
    ((update g x).2 = .error .notVerified ∨ ∃ o, (update g x).2 = .ok o) ∧
    (g.sample_rate_verified = true → ¬ (x :: g.x_buf).length ≤ g.order →
      (x :: g.x_buf).length = g.order + 1 ∧ (∀ v : K, (v :: g.y_buf).length = g.order + 1) ∧
      ∃ f2 y, steady { g with x_buf := x :: g.x_buf } = .ok (f2, y) ∧
        (update g x).2 = .ok (true, some y) ∧
        f2.x_buf.length = g.order ∧ f2.y_buf.length = g.order) := by
  obtain ⟨ho, ha, hb, hxy, hle⟩ := reachable_inv f0 g hwf hfresh hr
  have hwfg : WellFormed g := by
    unfold WellFormed; rw [ha, hb, ho]; exact hwf
  refine ⟨hxy, hle, hwfg.1, hwfg.2, ?_, ?_⟩
  · by_cases hv : g.sample_rate_verified = true
    · right
      rw [update_result g x hv hwfg hxy hle]
      split_ifs
      · exact ⟨_, rfl⟩
      · exact ⟨_, rfl⟩
    · left
      rw [update_notVerified_iff]
      simpa using hv
  · intro hv hnot
    have hx : g.x_buf.length = g.order := by simp at hnot; omega
    have hy : g.y_buf.length = g.order := by omega
    refine ⟨by simp [hx], fun v => by simp [hy], _, _, steady_eq g x hwfg hx hy, ?_, ?_, ?_⟩
    · rw [update_steady g x hv hwfg hx hy]
    · simp [hx]
    · simp [hy]

/-- C17 at the reference object over `ℚ`: verified with `dt = 0.01`, two calls
of `update` made, third input `3`. -/
theorem reachable_update_safe_witness :
    WellFormed (init : ButterWorthFilter ℚ) ∧ IsFresh (init : ButterWorthFilter ℚ) ∧
    Reachable (init : ButterWorthFilter ℚ)
      (update (update (verify_sample_rate init 0.01).1 1).1 2).1 ∧
    ∃ g : ButterWorthFilter ℚ, g = (update (update (verify_sample_rate init 0.01).1 1).1 2).1 ∧
    g.x_buf.length = g.y_buf.length ∧ g.x_buf.length ≤ g.order ∧
    g.a.length = g.order + 1 ∧ g.b.length = g.order + 1 ∧
    ((update g 3).2 = .error .notVerified ∨ ∃ o, (update g 3).2 = .ok o) ∧
    (g.sample_rate_verified = true → ¬ ((3 : ℚ) :: g.x_buf).length ≤ g.order →
      ((3 : ℚ) :: g.x_buf).length = g.order + 1 ∧
      (∀ v : ℚ, (v :: g.y_buf).length = g.order + 1) ∧
      ∃ f2 y, steady { g with x_buf := 3 :: g.x_buf } = .ok (f2, y) ∧
        (update g 3).2 = .ok (true, some y) ∧
        f2.x_buf.length = g.order ∧ f2.y_buf.length = g.order) :=
  have hr : Reachable (init : ButterWorthFilter ℚ)
      (update (update (verify_sample_rate init 0.01).1 1).1 2).1 :=
    Reachable.update _ 2 (Reachable.update _ 1 (Reachable.verify init 0.01 Reachable.start))
  ⟨init_wellFormed, init_isFresh, hr, _, rfl,
   reachable_update_safe init _ 3 init_wellFormed init_isFresh hr⟩

/-! ### C18: superposition -/

theorem directForm_linear (f : ButterWorthFilter K) (x z : Nat → K) (p q : K) (n : Nat) :
    directForm f (fun i => p * x i + q * z i) n
      = p * directForm f x n + q * directForm f z n := by
  induction n using Nat.strong_induction_on with
  | _ n ih =>
    by_cases hle : n ≤ f.order
    · rw [directForm_of_le f _ n hle, directForm_of_le f x n hle, directForm_of_le f z n hle]
      ring
    · have hgt : f.order < n := by omega
      rw [directForm_of_gt f _ n hgt, directForm_of_gt f x n hgt, directForm_of_gt f z n hgt]
      have hb : ∑ i in Finset.range (f.order + 1), f.b.getD i 0 * (p * x (n - i) + q * z (n - i))
          = p * ∑ i in Finset.range (f.order + 1), f.b.getD i 0 * x (n - i)
            + q * ∑ i in Finset.range (f.order + 1), f.b.getD i 0 * z (n - i) := by
        rw [Finset.mul_sum, Finset.mul_sum, ← Finset.sum_add_distrib]
        apply Finset.sum_congr rfl
        intro i _
        ring
      have ha : ∑ j in Finset.range f.order, f.a.getD (j + 1) 0
            * directForm f (fun i => p * x i + q * z i) (n - (j + 1))
          = p * ∑ j in Finset.range f.order, f.a.getD (j + 1) 0 * directForm f x (n - (j + 1))
            + q * ∑ j in Finset.range f.order,
                f.a.getD (j + 1) 0 * directForm f z (n - (j + 1)) := by
        rw [Finset.mul_sum, Finset.mul_sum, ← Finset.sum_add_distrib]
        apply Finset.sum_congr rfl
        intro j hj
        have hj2 : j < f.order := Finset.mem_range.mp hj
        rw [ih (n - (j + 1)) (by omega)]
        ring
      rw [hb, ha]
      ring

theorem getD_zipWith_linear (p q : K) (xs zs : List K) (hlen : xs.length = zs.length) (j : Nat) :
    (List.zipWith (fun u v => p * u + q * v) xs zs).getD j 0
      = p * xs.getD j 0 + q * zs.getD j 0 := by
  induction xs generalizing zs j with
  | nil =>
    cases zs with
    | nil => simp
    | cons z zs => simp at hlen
  | cons x xs ih =>
    cases zs with
    | nil => simp at hlen
    | cons z zs =>
      cases j with
      | zero => simp
      | succ j =>
        have := ih zs (by simpa using hlen) j
        simpa using this

/-- C18. For two input sequences `xs`, `zs` of one length and scalars `p`, `q`,
fed with `p*xs + q*zs` (entry by entry) to three fresh objects on which
`verify_sample_rate` has succeeded: at every call either all three return `false`,
or all three return `true` and the value for `p*xs + q*zs` is `p*y + q*y2`, `y`
and `y2` being the values for `xs` and `zs`.  And fed zeros only, every call
returns `false` or returns `true` with `y = 0`. -/
theorem update_superposition (f : ButterWorthFilter K) (dt : K) (xs zs : List K) (p q : K)
    (k : Nat) (hwf : WellFormed f) (hfresh : IsFresh f)
    (hver : (verify_sample_rate f dt).2 = .ok ()) (hlen : xs.length = zs.length)
    (hk : k < xs.length) :
    (((run (verify_sample_rate f dt).1 xs).2[k]? = some (.ok (false, none)) ∧
      (run (verify_sample_rate f dt).1 zs).2[k]? = some (.ok (false, none)) ∧
      (run (verify_sample_rate f dt).1 (List.zipWith (fun u v => p * u + q * v) xs zs)).2[k]?
        = some (.ok (false, none))) ∨
     ∃ y y2 : K,
      (run (verify_sample_rate f dt).1 xs).2[k]? = some (.ok (true, some y)) ∧
      (run (verify_sample_rate f dt).1 zs).2[k]? = some (.ok (true, some y2)) ∧
      (run (verify_sample_rate f dt).1 (List.zipWith (fun u v => p * u + q * v) xs zs)).2[k]?
        = some (.ok (true, some (p * y + q * y2)))) ∧
    ((run (verify_sample_rate f dt).1 (List.replicate xs.length 0)).2[k]?
        = some (.ok (false, none)) ∨
     (run (verify_sample_rate f dt).1 (List.replicate xs.length 0)).2[k]?
        = some (.ok (true, some 0))) := by
  obtain ⟨hv, hwf2, hx, hy, ho⟩ := verified_fresh f dt hwf hfresh hver
  have hkw : k < (List.zipWith (fun u v => p * u + q * v) xs zs).length := by
    simp [← hlen]; exact hk
  have h1 := run_outcome_directForm _ hv hwf2 hx hy xs k hk
  have h2 := run_outcome_directForm _ hv hwf2 hx hy zs k (by omega)
  have h3 := run_outcome_directForm _ hv hwf2 hx hy _ k hkw
  have h4 := run_outcome_directForm _ hv hwf2 hx hy (List.replicate xs.length 0) k
    (by simpa using hk)
  by_cases hko : k < (verify_sample_rate f dt).1.order
  · rw [if_pos hko] at h1 h2 h3 h4
    exact ⟨Or.inl ⟨h1, h2, h3⟩, Or.inl h4⟩
  · rw [if_neg hko] at h1 h2 h3 h4
    constructor
    · right
      refine ⟨_, _, h1, h2, ?_⟩
      rw [h3, ← directForm_linear]
      congr 5
      funext i
      exact getD_zipWith_linear p q xs zs hlen (i - 1)
    · right
      rw [h4]
      congr 4
      have hz : (fun i => (List.replicate xs.length (0 : K)).getD (i - 1) 0)
          = fun i => (0 : K) * (fun _ => (0 : K)) i + 0 * (fun _ => (0 : K)) i := by
        funext i
        rw [List.getD_eq_getElem?_getD, List.getElem?_replicate]
        split_ifs <;> simp
      rw [hz, directForm_linear]
      ring

/-- C18 at the reference object over `ℚ`, verified with `dt = 0.01`: inputs
`1, 2, 3` and `4, 5, 6`, scalars `2` and `-1`, third call. -/
theorem update_superposition_witness :
    WellFormed (init : ButterWorthFilter ℚ) ∧ IsFresh (init : ButterWorthFilter ℚ) ∧
    (verify_sample_rate (init : ButterWorthFilter ℚ) 0.01).2 = .ok () ∧
    [(1 : ℚ), 2, 3].length = [(4 : ℚ), 5, 6].length ∧ 2 < [(1 : ℚ), 2, 3].length ∧
    (((run (verify_sample_rate (init : ButterWorthFilter ℚ) 0.01).1 [1, 2, 3]).2[2]?
        = some (.ok (false, none)) ∧
      (run (verify_sample_rate (init : ButterWorthFilter ℚ) 0.01).1 [4, 5, 6]).2[2]?
        = some (.ok (false, none)) ∧
      (run (verify_sample_rate (init : ButterWorthFilter ℚ) 0.01).1
        (List.zipWith (fun u v => 2 * u + -1 * v) [1, 2, 3] [4, 5, 6])).2[2]?
        = some (.ok (false, none))) ∨
     ∃ y y2 : ℚ,
      (run (verify_sample_rate (init : ButterWorthFilter ℚ) 0.01).1 [1, 2, 3]).2[2]?
        = some (.ok (true, some y)) ∧
      (run (verify_sample_rate (init : ButterWorthFilter ℚ) 0.01).1 [4, 5, 6]).2[2]?
        = some (.ok (true, some y2)) ∧
      (run (verify_sample_rate (init : ButterWorthFilter ℚ) 0.01).1
        (List.zipWith (fun u v => 2 * u + -1 * v) [1, 2, 3] [4, 5, 6])).2[2]?
        = some (.ok (true, some (2 * y + -1 * y2)))) ∧
    ((run (verify_sample_rate (init : ButterWorthFilter ℚ) 0.01).1
        (List.replicate [(1 : ℚ), 2, 3].length 0)).2[2]? = some (.ok (false, none)) ∨
     (run (verify_sample_rate (init : ButterWorthFilter ℚ) 0.01).1
        (List.replicate [(1 : ℚ), 2, 3].length 0)).2[2]? = some (.ok (true, some 0))) :=
  ⟨init_wellFormed, init_isFresh, verify_init_ok, rfl, by decide,
   update_superposition init 0.01 [1, 2, 3] [4, 5, 6] 2 (-1) 2 init_wellFormed init_isFresh
     verify_init_ok rfl (by decide)⟩

end ButterWorthFilter
